import Mathlib

/-!
Verification of the AI Math Agent core (`open_ai_example_calc.py`).

This file gives a shallow embedding of the reasoning-verification pipeline of
the agent: number/expression extraction (`MathematicalEngine`), the local
arithmetic verifier (`calculate_locally`), the response-text heuristics
(`ResponseProcessor`), the confidence policy (`ErrorHandler`), the bounded
conversation memory (`ConversationManager`) and the orchestrator
(`AIMathAgent.process_request`).

Modelling conventions:
* Python strings are `List Char`; Python `float` values are modelled as exact
  rationals `ℚ` (the IEEE-754 rounding of decimal literals is idealised away;
  every number the pipeline manipulates enters through short decimal literals).
* Python regular expressions used by the source are deterministic on the
  pattern shapes that occur (greedy runs never need to backtrack across a
  required literal), so each one is embedded as an explicit left-to-right
  scanner that is proved/analysed below exactly as the `re` module behaves.
* `float(...)` is embedded by `pyFloat` for sign/digits/point grammar; the
  exponent, underscore, and inf/nan forms accepted by Python never occur on
  the strings this program feeds to `float` and are omitted.
* Exceptions are values: fallible steps return `Option`/`Except`, and the
  orchestrator's `try/except` is the explicit error branch of
  `process_request`.
* `datetime.now()` is a clock value passed in as a `ℕ` parameter.
-/

/-- Python whitespace, as used by `str.strip()` (no argument) and by the
regex class `\s` for the ASCII texts handled here: space, tab, newline,
carriage return, vertical tab, form feed. -/
def isWs (c : Char) : Bool :=
  c == ' ' || c == '\t' || c == '\n' || c == '\r' || c == '\x0B' || c == '\x0C'

/-- Embedding of Python `str.strip()`: drop leading whitespace, then trailing
whitespace. -/
def pyStrip (s : List Char) : List Char :=
  ((s.dropWhile isWs).reverse.dropWhile isWs).reverse

/-- Embedding of Python `str.split(sep)` for a one-character separator:
splits at every occurrence, keeping empty pieces (`"".split('+') == [""]`,
`"a+".split('+') == ["a", ""]`). -/
def pySplit (sep : Char) : List Char → List (List Char)
  | [] => [[]]
  | c :: cs =>
    if c = sep then [] :: pySplit sep cs
    else
      match pySplit sep cs with
      | [] => [[c]]
      | h :: t => (c :: h) :: t

/-- Decimal digit character for a value below ten (used to print numbers the
way Python renders floats). -/
def digChar : ℕ → Char
  | 0 => '0'
  | 1 => '1'
  | 2 => '2'
  | 3 => '3'
  | 4 => '4'
  | 5 => '5'
  | 6 => '6'
  | 7 => '7'
  | 8 => '8'
  | _ => '9'

/-- Numeric value of a digit string (most significant first). -/
def digitsNat (ds : List Char) : ℕ :=
  ds.foldl (fun a c => 10 * a + (c.toNat - 48)) 0

/-- Fuel-driven decimal rendering of a natural number; `natStrAux n n`
produces the digits of `n > 0`. -/
def natStrAux : ℕ → ℕ → List Char
  | 0, _ => []
  | fuel + 1, n => if n = 0 then [] else natStrAux fuel (n / 10) ++ [digChar (n % 10)]

/-- Decimal rendering of a natural number, `0 ↦ "0"`. -/
def natStr (n : ℕ) : List Char :=
  if n = 0 then ['0'] else natStrAux n n

/-- Upward search for the least exponent `k` with `d ∣ 10 ^ k`, returning
`0` when the fuel runs out. -/
def decExpAux (d : ℕ) : ℕ → ℕ → ℕ
  | 0, _ => 0
  | fuel + 1, k => if 10 ^ k % d == 0 then k else decExpAux d fuel (k + 1)

/-- Least exponent `k ≤ d` with `d ∣ 10 ^ k` (and `0` if there is none).
For the denominator of a float-representable rational this is the number of
decimal places of its shortest exact decimal form. -/
def decExp (d : ℕ) : ℕ :=
  decExpAux d (d + 1) 0

/-- A rational that a Python float coming from a decimal literal can denote:
its reduced denominator divides a power of ten. -/
def IsDecimalRat (q : ℚ) : Prop :=
  ∃ k : ℕ, (q.den : ℕ) ∣ 10 ^ k

/-- Number of decimal places in the shortest exact decimal form of `q`. -/
def fracExp (q : ℚ) : ℕ :=
  decExp q.den

/-- Numerator of `|q|` over the denominator `10 ^ fracExp q`. -/
def mantissa (q : ℚ) : ℕ :=
  q.num.natAbs * (10 ^ fracExp q / q.den)

/-- Digits before the decimal point of the Python rendering of `|q|`. -/
def intDigits (q : ℚ) : List Char :=
  natStr (mantissa q / 10 ^ fracExp q)

/-- Digits after the decimal point of the Python rendering of `|q|` (zero
padded on the left to the full number of decimal places; Python prints at
least one fractional digit, so an integer gets the single digit `0`). -/
def fracDigits (q : ℚ) : List Char :=
  List.replicate (fracExp q - (natStr (mantissa q % 10 ^ fracExp q)).length) '0' ++
    natStr (mantissa q % 10 ^ fracExp q)

/-- The magnitudes CPython prints positionally: zero, or `1e-4 ≤ |q| < 1e16`
(equivalently, the decimal exponent of the shortest representation lies in
`[-4, 15]`), phrased on the mantissa-over-power-of-ten data of `|q|`.
Outside this range `repr(float)` switches to scientific notation. -/
abbrev inPosRange (q : ℚ) : Prop :=
  mantissa q = 0 ∨
    (10 ^ fracExp q ≤ 10000 * mantissa q ∧ mantissa q < 10 ^ (fracExp q + 16))

/-- Shortest-form mantissa digits of `|q| = m / 10 ^ k`: the decimal digits
of `m` with trailing zeros removed. -/
def sciMantissa (m : ℕ) : List Char :=
  ((natStr m).reverse.dropWhile (fun c => c == '0')).reverse

/-- Decimal exponent of `|q| = m / 10 ^ k` in scientific notation. -/
def sciExp (m k : ℕ) : ℤ :=
  ((natStr m).length : ℤ) - 1 - k

/-- Exponent suffix of CPython's scientific notation: an explicit sign and at
least two exponent digits (`str(1e-05) == '1e-05'`, `str(1e16) == '1e+16'`,
`str(1e100) == '1e+100'`). -/
def expStr (e : ℤ) : List Char :=
  (if e < 0 then '-' else '+') ::
    (if (natStr e.natAbs).length < 2 then '0' :: natStr e.natAbs else natStr e.natAbs)

/-- CPython's scientific rendering of `m / 10 ^ k`: the first mantissa
digit, the remaining mantissa digits after a point when there are any
(`'1e-05'`, `'1.23e-05'`, `'2.5e+16'`), then `e` and the signed exponent. -/
def sciRepr (m k : ℕ) : List Char :=
  match sciMantissa m with
  | [] => ['0']
  | d :: rest => (d :: (if rest = [] then [] else '.' :: rest)) ++ 'e' :: expStr (sciExp m k)

/-- Unsigned part of the Python rendering of a float: positional
(integer digits, point, fractional digits) inside CPython's positional
range, scientific notation outside it. -/
def floatBody (q : ℚ) : List Char :=
  if inPosRange q then intDigits q ++ '.' :: fracDigits q
  else sciRepr (mantissa q) (fracExp q)

/-- Embedding of the Python float-to-string conversion used by the f-string
`f"{numbers[0]} {operation} {numbers[1]}"`: sign, then the shortest exact
decimal expansion, positionally for zero and magnitudes in `[1e-4, 1e16)`
(`f"{8.0}" == "8.0"`, `f"{-2.5}" == "-2.5"`) and in scientific notation
outside that range (`f"{0.00001}" == "1e-05"`, `f"{1e16}" == "1e+16"`),
exactly as CPython's `repr` formats floats. -/
def floatRepr (q : ℚ) : List Char :=
  (if q < 0 then ['-'] else []) ++ floatBody q

/-- Leading-sign step of Python `float(...)`: an optional `'-'` or `'+'`. -/
def splitSign (t : List Char) : ℚ × List Char :=
  match t with
  | [] => (1, [])
  | c :: r => if c = '-' then (-1, r) else if c = '+' then (1, r) else (1, c :: r)

/-- Core of the Python `float(...)` conversion on an already-stripped string:
optional sign, digits, optional point, digits — at least one digit overall —
then an optional exponent part `e`/`E`, optional sign, digits, and nothing
else (`float('1e-05')` and `float('5.e3')` succeed, `float('1e')` raises).
Returns `none` where Python raises `ValueError`.  The `inf`/`nan` words and
underscore separators of the full grammar never occur in the strings this
program feeds to `float` (they are not produced by rendering finite floats)
and are omitted; exponent overflow to `inf` is idealised away by exact
rational arithmetic. -/
def pyFloatAux (t : List Char) : Option ℚ :=
  let sgn := (splitSign t).1
  let t1 := (splitSign t).2
  let d1 := t1.takeWhile Char.isDigit
  let r1 := t1.dropWhile Char.isDigit
  let d2 := if r1.headD ' ' = '.' then r1.tail.takeWhile Char.isDigit else []
  let r2 := if r1.headD ' ' = '.' then r1.tail.dropWhile Char.isDigit else r1
  if d1 = [] ∧ d2 = [] then none
  else
    match r2 with
    | [] => some (sgn * ((digitsNat d1 : ℚ) + (digitsNat d2 : ℚ) / 10 ^ d2.length))
    | c :: r3 =>
      if c = 'e' ∨ c = 'E' then
        let e1 := if r3.headD ' ' = '-' ∨ r3.headD ' ' = '+' then r3.tail else r3
        if e1.takeWhile Char.isDigit ≠ [] ∧ e1.dropWhile Char.isDigit = [] then
          some ((sgn * ((digitsNat d1 : ℚ) + (digitsNat d2 : ℚ) / 10 ^ d2.length)) *
            (if r3.headD ' ' = '-' then
              (1 : ℚ) / 10 ^ digitsNat (e1.takeWhile Char.isDigit)
             else 10 ^ digitsNat (e1.takeWhile Char.isDigit)))
        else none
      else none

/-- Embedding of Python `float(s)` (which strips surrounding whitespace
itself). -/
def pyFloat (s : List Char) : Option ℚ :=
  pyFloatAux (pyStrip s)

/-- One number token of the regex `-?\d+\.?\d*` starting exactly at the head
of `s`, together with the rest of the string: greedy digits, an optional
point, greedy digits.  Returns `none` when the regex cannot match at this
position. -/
def parseNumTok (s : List Char) : Option (ℚ × List Char) :=
  match s with
  | [] => none
  | c :: cs =>
    if c = '-' then
      match parsePosTok cs with
      | some (v, r) => some (-v, r)
      | none => none
    else parsePosTok (c :: cs)
where
  parsePosTok (u : List Char) : Option (ℚ × List Char) :=
    let d1 := u.takeWhile Char.isDigit
    if d1 = [] then none
    else
      let r1 := u.dropWhile Char.isDigit
      if r1.headD ' ' = '.' then
        let d2 := r1.tail.takeWhile Char.isDigit
        some ((digitsNat d1 : ℚ) + (digitsNat d2 : ℚ) / 10 ^ d2.length,
          r1.tail.dropWhile Char.isDigit)
      else some ((digitsNat d1 : ℚ), r1)

/-- Left-to-right non-overlapping scan of `re.findall(r'-?\d+\.?\d*', text)`;
the fuel argument starts at the length of the text and is an upper bound on
the number of scan steps. -/
def scanNumbersAux : ℕ → List Char → List ℚ
  | 0, _ => []
  | _ + 1, [] => []
  | fuel + 1, c :: cs =>
    match parseNumTok (c :: cs) with
    | some (q, rest) => q :: scanNumbersAux fuel rest
    | none => scanNumbersAux fuel cs

/-- Embedding of `MathematicalEngine.extract_numbers_from_text`: all matches
of `-?\d+\.?\d*` in order of appearance, converted by `float`. -/
def extract_numbers_from_text (text : List Char) : List ℚ :=
  scanNumbersAux text.length text

/-- Boolean substring test, embedding the Python expression
`word in expression` on strings. -/
def isSubstrB (needle hay : List Char) : Bool :=
  hay.tails.any (fun t => needle.isPrefixOf t)

/-- The keyword table of `parse_math_expression`, in Python dict insertion
order (which the `for word, op in operations.items()` loop follows). -/
def operationsTable : List (List Char × Char) :=
  [("add".toList, '+'), ("plus".toList, '+'), ("sum".toList, '+'), ("addition".toList, '+'),
   ("subtract".toList, '-'), ("minus".toList, '-'), ("difference".toList, '-'),
   ("multiply".toList, '*'), ("times".toList, '*'), ("product".toList, '*'),
   ("multiplication".toList, '*'),
   ("divide".toList, '/'), ("divided by".toList, '/'), ("division".toList, '/')]

/-- The operator chosen by the keyword loop of `parse_math_expression`: the
first table entry (in table order, not text order) whose keyword occurs as a
substring of the lower-cased expression. -/
def firstOperation (e : List Char) : Option Char :=
  (operationsTable.find? (fun wo => isSubstrB wo.1 e)).map (fun wo => wo.2)

/-- The spec's CanonicalExpression data: an operator symbol and two
operands. -/
structure CanonicalExpression where
  op : Char
  a : ℚ
  b : ℚ
deriving DecidableEq

/-- The string the parser emits for a canonical expression, embedding the
f-string `f"{numbers[0]} {operation} {numbers[1]}"`. -/
def renderCanonical (e : CanonicalExpression) : List Char :=
  floatRepr e.a ++ ' ' :: e.op :: ' ' :: floatRepr e.b

/-- Embedding of `MathematicalEngine.parse_math_expression`: lower-case and
strip the input, pick the first matching keyword in table order, extract all
numbers, and if both an operator and at least two numbers exist return the
rendered two-operand expression with the first two numbers; otherwise return
the lower-cased input together with all numbers found. -/
def parse_math_expression (expression : List Char) : List Char × List ℚ :=
  let e := pyStrip (expression.map Char.toLower)
  let operation := firstOperation e
  let numbers := extract_numbers_from_text e
  match operation with
  | some op =>
    if 2 ≤ numbers.length then
      (renderCanonical ⟨op, numbers.headD 0, (numbers.drop 1).headD 0⟩, numbers.take 2)
    else (e, numbers)
  | none => (e, numbers)

/-- Embedding of `MathematicalEngine.calculate_locally`: branch on the first
operator character contained in the string (in the order `+`, `-`, `*`, `/`),
split on it, and convert the first two pieces with `float`; any conversion
failure is caught by the surrounding `except` and yields `None`, and a zero
denominator yields `None` explicitly. -/
def calculate_locally (expression : List Char) : Option ℚ :=
  if '+' ∈ expression then
    match pyFloat ((pySplit '+' expression).getD 0 []),
        pyFloat ((pySplit '+' expression).getD 1 []) with
    | some a, some b => some (a + b)
    | _, _ => none
  else if '-' ∈ expression then
    match pyFloat ((pySplit '-' expression).getD 0 []),
        pyFloat ((pySplit '-' expression).getD 1 []) with
    | some a, some b => some (a - b)
    | _, _ => none
  else if '*' ∈ expression then
    match pyFloat ((pySplit '*' expression).getD 0 []),
        pyFloat ((pySplit '*' expression).getD 1 []) with
    | some a, some b => some (a * b)
    | _, _ => none
  else if '/' ∈ expression then
    match pyFloat ((pySplit '/' expression).getD 1 []) with
    | none => none
    | some d =>
      if d = 0 then none
      else
        match pyFloat ((pySplit '/' expression).getD 0 []) with
        | some n => some (n / d)
        | none => none
  else none

/-- Case-insensitive prefix test: the lower-case pattern matches the text
read with `re.IGNORECASE`. -/
def ciPref : List Char → List Char → Bool
  | [], _ => true
  | _ :: _, [] => false
  | p :: ps, c :: cs => p == c.toLower && ciPref ps cs

/-- Case-insensitive substring test (used to state when a marker occurs at
all in a response). -/
def ciContainsB (needle : List Char) : List Char → Bool
  | [] => needle.isEmpty
  | c :: cs => ciPref needle (c :: cs) || ciContainsB needle cs

/-- Tail of the regex `(?:result|answer|equals?|is)\s*:?\s*(-?\d+\.?\d*)`
after its keyword: optional whitespace, optional colon, optional whitespace,
then a number token.  The greedy `\s*` runs are deterministic because neither
`':'` nor a digit is whitespace. -/
def numAfterColonOpt (t : List Char) : Option ℚ :=
  let t1 := t.dropWhile isWs
  let t2 := if t1.headD ' ' = ':' then t1.tail else t1
  (parseNumTok (t2.dropWhile isWs)).map (fun p => p.1)

/-- Expansion of the alternation `result|answer|equals?|is`; the greedy `s?`
of `equals?` makes the engine try `equals` before `equal`. -/
def resultKeywords : List (List Char) :=
  ["result".toList, "answer".toList, "equals".toList, "equal".toList, "is".toList]

/-- Leftmost match of the first result pattern
`(?:result|answer|equals?|is)\s*:?\s*(-?\d+\.?\d*)` (IGNORECASE). -/
def searchPat1 : List Char → Option ℚ
  | [] => none
  | c :: cs =>
    match resultKeywords.findSome?
        (fun kw => if ciPref kw (c :: cs) then numAfterColonOpt ((c :: cs).drop kw.length)
          else none) with
    | some q => some q
    | none => searchPat1 cs

/-- Leftmost match of `(-?\d+\.?\d*)\s*(?:is the result|is the answer)`
(IGNORECASE): a number token, whitespace, then one of the two literals. -/
def searchPat2 : List Char → Option ℚ
  | [] => none
  | c :: cs =>
    match parseNumTok (c :: cs) with
    | some (q, rest) =>
      if ciPref "is the result".toList (rest.dropWhile isWs)
          || ciPref "is the answer".toList (rest.dropWhile isWs) then some q
      else searchPat2 cs
    | none => searchPat2 cs

/-- Leftmost match of `final answer\s*:?\s*(-?\d+\.?\d*)` (IGNORECASE). -/
def searchPat3 : List Char → Option ℚ
  | [] => none
  | c :: cs =>
    if ciPref "final answer".toList (c :: cs) then
      match numAfterColonOpt ((c :: cs).drop ("final answer".toList).length) with
      | some q => some q
      | none => searchPat3 cs
    else searchPat3 cs

/-- Leftmost match of `(-?\d+\.?\d*)$`: a number token that runs to the end
of the string, or to just before a final newline (`$` without MULTILINE). -/
def searchPat4 : List Char → Option ℚ
  | [] => none
  | c :: cs =>
    match parseNumTok (c :: cs) with
    | some (q, rest) => if rest = [] ∨ rest = ['\n'] then some q else searchPat4 cs
    | none => searchPat4 cs

/-- Embedding of `ResponseProcessor.extract_result_from_response`: the four
patterns in priority order, then the fallback to the last number found
anywhere, then `None`.  (The `float(match.group(1))` conversion can never
raise on a `-?\d+\.?\d*` capture, so the `except ValueError: continue` arm
is dead and is not modelled.) -/
def extract_result_from_response (response_text : List Char) : Option ℚ :=
  match searchPat1 response_text with
  | some q => some q
  | none =>
    match searchPat2 response_text with
    | some q => some q
    | none =>
      match searchPat3 response_text with
      | some q => some q
      | none =>
        match searchPat4 response_text with
        | some q => some q
        | none => (extract_numbers_from_text response_text).getLast?

/-- Tail of the reasoning regexes after a matched marker:
`[^:]*:\s*(.*?)(?:\n|$)` — skip to the first colon (failing if there is
none), then the capture is the text after the following whitespace up to the
next newline or the end. -/
def colonCapture (t : List Char) : Option (List Char) :=
  match t.dropWhile (fun c => !(c == ':')) with
  | [] => none
  | _ :: r => some ((r.dropWhile isWs).takeWhile (fun c => !(c == '\n')))

/-- Leftmost match of a marker alternation followed by `[^:]*:\s*(.*?)(?:\n|$)`
(IGNORECASE), returning the capture group. -/
def searchMarkers (markers : List (List Char)) : List Char → Option (List Char)
  | [] => none
  | c :: cs =>
    match markers.findSome?
        (fun m => if ciPref m (c :: cs) then colonCapture ((c :: cs).drop m.length)
          else none) with
    | some g => some g
    | none => searchMarkers markers cs

/-- Markers of the first reasoning pattern of `extract_reasoning`. -/
def reasoningMarkers1 : List (List Char) :=
  ["step".toList, "reasoning".toList, "explanation".toList, "because".toList, "since".toList]

/-- Markers of the second reasoning pattern of `extract_reasoning`. -/
def reasoningMarkers2 : List (List Char) :=
  ["i think".toList, "i believe".toList, "i calculate".toList]

/-- Embedding of `ResponseProcessor.extract_reasoning`: try the two reasoning
patterns in order and return the stripped capture of the first match,
falling back to the whole response text stripped. -/
def extract_reasoning (response_text : List Char) : List Char :=
  match searchMarkers reasoningMarkers1 response_text with
  | some g => pyStrip g
  | none =>
    match searchMarkers reasoningMarkers2 response_text with
    | some g => pyStrip g
    | none => pyStrip response_text

/-- Embedding of `ErrorHandler.calculate_confidence` with its default
tolerance `0.0001`. -/
def calculate_confidence (ai_result : ℚ) (local_result : Option ℚ)
    (tolerance : ℚ := 1/10000) : ℚ :=
  match local_result with
  | none => 1/2
  | some l =>
    if |ai_result - l| ≤ tolerance then 1
    else if |ai_result - l| ≤ tolerance * 10 then 7/10
    else if |ai_result - l| ≤ tolerance * 100 then 2/5
    else 1/10

/-- The `verification_passed` expression of `process_request`:
`local_result is not None and abs(result - local_result) < 0.0001`. -/
def verification_passed (result : ℚ) (local_result : Option ℚ) : Bool :=
  match local_result with
  | none => false
  | some l => decide (|result - l| < 1/10000)

/-- Agent operational states (`AgentState` enum). -/
inductive AgentState where
  | idle
  | processing
  | reasoning
  | verifying
  | completed
  | error
deriving DecidableEq

/-- A conversation message (`ConversationMessage` dataclass); the timestamp
is the clock value at creation. -/
structure ConversationMessage where
  role : List Char
  content : List Char
  timestamp : ℕ
  metadata : Option (List (List Char × List Char)) := none
deriving DecidableEq

/-- Conversation memory and context store (`ConversationManager`). -/
structure ConversationManager where
  max_history : ℕ := 10
  messages : List ConversationMessage := []
  context_variables : List (List Char × List Char) := []
deriving DecidableEq

/-- Embedding of the Python slice `xs[-n:]` for a nonnegative `n`: the last
`n` elements — except that `xs[-0:]` is `xs[0:]`, the whole list. -/
def pySliceLast {α : Type} (n : ℕ) (xs : List α) : List α :=
  if n = 0 then xs else xs.drop (xs.length - n)

/-- Embedding of `ConversationManager.add_message`: append the new message,
then trim to the last `max_history` entries when the bound is exceeded. -/
def ConversationManager.add_message (cm : ConversationManager) (role content : List Char)
    (t : ℕ) (metadata : Option (List (List Char × List Char)) := none) :
    ConversationManager :=
  let messages := cm.messages ++
    [{ role := role, content := content, timestamp := t, metadata := metadata }]
  if cm.max_history < messages.length then
    { cm with messages := pySliceLast cm.max_history messages }
  else
    { cm with messages := messages }

/-- Embedding of `ConversationManager.get_context`. -/
def ConversationManager.get_context (cm : ConversationManager) :
    List (List Char × List Char) :=
  cm.messages.map (fun m => (m.role, m.content))

/-- The message built by one `add_message(role, content)` call at clock `t`
(with the default `metadata=None`). -/
def mkMessage (it : (List Char) × (List Char) × ℕ) : ConversationMessage :=
  { role := it.1, content := it.2.1, timestamp := it.2.2 }

/-- A sequence of `add_message` calls, used to state the sliding-window
property of the conversation memory. -/
def insertAll (cm : ConversationManager) (items : List ((List Char) × (List Char) × ℕ)) :
    ConversationManager :=
  items.foldl (fun c it => c.add_message it.1 it.2.1 it.2.2) cm

/-- A calculation result (`CalculationResult` dataclass). -/
structure CalculationResult where
  expression : List Char
  result : ℚ
  reasoning : List Char
  confidence : ℚ
  verification_passed : Bool
  timestamp : ℕ
  tokens_used : ℕ
deriving DecidableEq

/-- The exceptions that can reach the orchestrator's `except` clause: the
`ValueError`s it raises itself and the client-error classes distinguished by
`ErrorHandler.handle_api_error`. -/
inductive PyExc where
  | valueError (msg : List Char)
  | rateLimitError (msg : List Char)
  | authenticationError (msg : List Char)
  | apiError (msg : List Char)
deriving DecidableEq

/-- Embedding of `ErrorHandler.handle_api_error`: the `isinstance` chain maps
rate-limit, authentication and generic API errors to fixed messages and
everything else (including `ValueError`) to an "Unexpected error" message. -/
def handle_api_error : PyExc → List Char
  | .rateLimitError _ => "Rate limit exceeded. Please wait a moment and try again.".toList
  | .authenticationError _ => "Authentication failed. Please check your API key.".toList
  | .apiError m => "API error occurred: ".toList ++ m
  | .valueError m => "Unexpected error: ".toList ++ m

/-- Mutable state of an `AIMathAgent` (the client handle is an external
collaborator and is not part of the core state). -/
structure AIMathAgent where
  state : AgentState := .idle
  conversation_manager : ConversationManager := {}
  calculation_history : List CalculationResult := []
  total_tokens_used : ℕ := 0
deriving DecidableEq

/-- Embedding of `AIMathAgent._estimate_tokens_used`. -/
def estimate_tokens_used (response_text : List Char) : ℕ :=
  response_text.length / 4

/-- Rendering of the Python format `f"{x:.1%}"` for the rational confidence
values (all of which are exact multiples of a tenth of a percent, so the
rounding mode is irrelevant here). -/
def pctRepr (q : ℚ) : List Char :=
  let n := round (q * 1000)
  (if n < 0 then ['-'] else []) ++
    natStr (n.natAbs / 10) ++ '.' :: digChar (n.natAbs % 10) :: ['%']

/-- Embedding of `AIMathAgent._format_response`. -/
def format_response (result : CalculationResult) (local_result : Option ℚ) : List Char :=
  "I calculated ".toList ++ result.expression ++ " = ".toList ++ floatRepr result.result ++
    "\n\n".toList ++ "Reasoning: ".toList ++ result.reasoning ++ "\n\n".toList ++
    "Confidence: ".toList ++ pctRepr result.confidence ++
    (match local_result with
     | none => []
     | some l =>
       if result.verification_passed then "\nVerification: ✅ Passed".toList
       else "\nVerification: ⚠️  Local result: ".toList ++ floatRepr l)

/-- The `except` clause of `process_request`: set the state to `Error`,
classify the exception, and re-raise it as a `ValueError` carrying the
classified message. -/
def failWith (a : AIMathAgent) (e : PyExc) :
    Except PyExc CalculationResult × AIMathAgent :=
  (Except.error (.valueError (handle_api_error e)), { a with state := .error })

/-- Embedding of `AIMathAgent.process_request`.  The external LLM call
`_get_ai_calculation` is an explicit collaborator outcome: either the
response text or the exception the client raised.  The clock value `t`
stands for `datetime.now()`.  The returned pair is the raised-or-returned
result together with the agent state after the call. -/
def process_request (agent : AIMathAgent) (user_input : List Char)
    (collab : Except PyExc (List Char)) (t : ℕ) :
    Except PyExc CalculationResult × AIMathAgent :=
  let a0 := { agent with state := AgentState.processing }
  let a1 := { a0 with
    conversation_manager := a0.conversation_manager.add_message "user".toList user_input t }
  let expression := (parse_math_expression user_input).1
  let numbers := (parse_math_expression user_input).2
  if numbers.length < 2 then
    failWith a1 (.valueError "Please provide at least two numbers for calculation".toList)
  else
    let a2 := { a1 with state := AgentState.reasoning }
    match collab with
    | .error e => failWith a2 e
    | .ok ai_response =>
      match extract_result_from_response ai_response with
      | none => failWith a2 (.valueError "Could not extract result from AI response".toList)
      | some result =>
        let a3 := { a2 with state := AgentState.verifying }
        let local_result := calculate_locally expression
        let calculation_result : CalculationResult :=
          { expression := expression
            result := result
            reasoning := extract_reasoning ai_response
            confidence := calculate_confidence result local_result
            verification_passed := verification_passed result local_result
            timestamp := t
            tokens_used := estimate_tokens_used ai_response }
        let a4 := { a3 with
          calculation_history := a3.calculation_history ++ [calculation_result] }
        let a5 := { a4 with
          conversation_manager := a4.conversation_manager.add_message "assistant".toList
            (format_response calculation_result local_result) t }
        (Except.ok calculation_result, { a5 with state := AgentState.completed })

example : pySplit '+' "a+".toList = ["a".toList, []] := by decide
example : pySplit '-' "-2.0 * 3.0".toList = [[], "2.0 * 3.0".toList] := by decide
example : pyStrip "  a b ".toList = "a b".toList := by decide
example : natStr 907 = ['9', '0', '7'] := by decide
example : decExp 8 = 3 := by decide
example : floatRepr 2 = ['2', '.', '0'] := by decide
example : floatRepr (-2) = ['-', '2', '.', '0'] := by decide
example : (extract_numbers_from_text "add 5 and 3".toList).length = 2 := by decide
example : (extract_numbers_from_text "7-2".toList).length = 2 := by decide
example : extract_numbers_from_text "no digits".toList = [] := by decide
example : (pyFloat "  5.25 ".toList).isSome = true := by decide
example : pyFloat "".toList = none := by decide
example : pyFloat "5.0 * ".toList = none := by decide
example : floatRepr (Rat.mk' 1 100000 (by norm_num) (Nat.coprime_one_left _)) =
    "1e-05".toList := by decide
example : floatRepr (Rat.mk' 123 10000000 (by norm_num) (by norm_num)) =
    "1.23e-05".toList := by decide
example : floatRepr (Rat.mk' 1 10000 (by norm_num) (Nat.coprime_one_left _)) =
    "0.0001".toList := by decide
example : (pyFloat "1e-05".toList).isSome = true := by decide
example : (pyFloat "5.e3".toList).isSome = true := by decide
example : pyFloat "1e".toList = none := by decide
example : calculate_locally "1e-05 - 3.0".toList = none := by decide
example : firstOperation "2 minus 1 plus 3".toList = some '+' := by decide
example : (parse_math_expression "only 7".toList).1 = "only 7".toList := by decide
example : (calculate_locally "5.0 * 3.0".toList).isSome = true := by decide
example : calculate_locally "-2.0 * 3.0".toList = none := by decide
example : extract_reasoning "explanation: yes".toList = "yes".toList := by decide
example : extract_reasoning "hello world".toList = "hello world".toList := by decide
example : (extract_result_from_response "the answer is 42, not 7".toList).isSome = true := by
  decide
example : extract_result_from_response "no numerals here".toList = none := by decide
example : (process_request {} "add 5".toList (Except.ok "8".toList) 0).2.state =
    AgentState.error := by decide
example :
    (process_request {} "add 5 and 3".toList (Except.ok "no numbers here!".toList) 0).2.state =
      AgentState.error := by decide
example :
    (process_request {} "add 5 and 3".toList (Except.ok "no numbers here!".toList)
        0).2.calculation_history = [] := by decide

/-! ### List scanning lemmas -/

theorem takeWhile_append_of_all {α : Type} (p : α → Bool) (A B : List α)
    (h : ∀ c ∈ A, p c = true) : (A ++ B).takeWhile p = A ++ B.takeWhile p := by
  induction A with
  | nil => rfl
  | cons a A ih =>
    have ha : p a = true := h a (List.mem_cons_self a A)
    simp only [List.cons_append, List.takeWhile_cons, ha, if_true]
    rw [ih (fun c hc => h c (List.mem_cons_of_mem a hc))]

theorem dropWhile_append_of_all {α : Type} (p : α → Bool) (A B : List α)
    (h : ∀ c ∈ A, p c = true) : (A ++ B).dropWhile p = B.dropWhile p := by
  induction A with
  | nil => rfl
  | cons a A ih =>
    have ha : p a = true := h a (List.mem_cons_self a A)
    simp only [List.cons_append, List.dropWhile_cons, ha, if_true]
    exact ih (fun c hc => h c (List.mem_cons_of_mem a hc))

theorem takeWhile_eq_self_of_all {α : Type} (p : α → Bool) (A : List α)
    (h : ∀ c ∈ A, p c = true) : A.takeWhile p = A := by
  have := takeWhile_append_of_all p A [] h
  simpa using this

theorem dropWhile_eq_nil_of_all {α : Type} (p : α → Bool) (A : List α)
    (h : ∀ c ∈ A, p c = true) : A.dropWhile p = [] := by
  have := dropWhile_append_of_all p A [] h
  simpa using this

theorem dropWhile_eq_self_of_not {α : Type} (p : α → Bool) (s : List α)
    (h : ∀ c ∈ s, p c = false) : s.dropWhile p = s := by
  cases s with
  | nil => rfl
  | cons a l => simp [List.dropWhile_cons, h a (List.mem_cons_self a l)]

theorem all_of_dropWhile_eq_nil {α : Type} (p : α → Bool) :
    ∀ l : List α, l.dropWhile p = [] → ∀ x ∈ l, p x = true := by
  intro l
  induction l with
  | nil => intro _ x hx; simp at hx
  | cons a t ih =>
    intro h x hx
    rw [List.dropWhile_cons] at h
    by_cases hpa : p a = true
    · rw [if_pos hpa] at h
      rcases List.mem_cons.mp hx with rfl | hx
      · exact hpa
      · exact ih h x hx
    · rw [if_neg hpa] at h
      exact absurd h (by simp)

theorem findSome?_none_of_all {α β : Type} (f : α → Option β) :
    ∀ l : List α, (∀ x ∈ l, f x = none) → l.findSome? f = none := by
  intro l
  induction l with
  | nil => intro _; rfl
  | cons a t ih =>
    intro h
    rw [List.findSome?_cons, h a (List.mem_cons_self a t)]
    exact ih (fun x hx => h x (List.mem_cons_of_mem a hx))

/-! ### pyStrip lemmas -/

theorem pyStrip_of_clean (s : List Char) (h : ∀ c ∈ s, isWs c = false) :
    pyStrip s = s := by
  unfold pyStrip
  rw [dropWhile_eq_self_of_not _ _ h,
    dropWhile_eq_self_of_not _ _ (fun c hc => h c (List.mem_reverse.mp hc)),
    List.reverse_reverse]

theorem pyStrip_cons_space (s : List Char) (h : ∀ c ∈ s, isWs c = false) :
    pyStrip (' ' :: s) = s := by
  unfold pyStrip
  rw [List.dropWhile_cons]
  norm_num [show isWs ' ' = true from rfl]
  rw [dropWhile_eq_self_of_not _ _ h,
    dropWhile_eq_self_of_not _ _ (fun c hc => h c (List.mem_reverse.mp hc)),
    List.reverse_reverse]

/-! ### pySplit lemmas -/

theorem pySplit_of_not_mem (sep : Char) (s : List Char) (h : sep ∉ s) :
    pySplit sep s = [s] := by
  induction s with
  | nil => rfl
  | cons a l ih =>
    have hac : ¬(a = sep) := fun e => h (e ▸ List.mem_cons_self a l)
    have h' : sep ∉ l := fun m => h (List.mem_cons_of_mem a m)
    simp [pySplit, hac, ih h']

theorem pySplit_cons_sep (sep : Char) (rest : List Char) :
    pySplit sep (sep :: rest) = [] :: pySplit sep rest := by
  simp [pySplit]

theorem pySplit_cons_ne (sep a : Char) (cs : List Char) (h : ¬(a = sep)) :
    pySplit sep (a :: cs) =
      match pySplit sep cs with
      | [] => [[a]]
      | g :: t => (a :: g) :: t := by
  simp [pySplit, h]

theorem pySplit_append (sep : Char) (A B : List Char) (h : sep ∉ A) :
    pySplit sep (A ++ sep :: B) = A :: pySplit sep B := by
  induction A with
  | nil => simp [pySplit]
  | cons a A ih =>
    have hac : ¬(a = sep) := fun e => h (e ▸ List.mem_cons_self a A)
    have h' : sep ∉ A := fun m => h (List.mem_cons_of_mem a m)
    rw [List.cons_append, pySplit_cons_ne sep a _ hac, ih h']

/-! ### Digit-string lemmas -/

theorem digChar_isDigit (n : ℕ) : (digChar n).isDigit = true := by
  unfold digChar
  split <;> decide

theorem digChar_toNat (n : ℕ) (h : n < 10) : (digChar n).toNat - 48 = n := by
  interval_cases n <;> decide

theorem digitsNat_append_digit (A : List Char) (c : Char) :
    digitsNat (A ++ [c]) = 10 * digitsNat A + (c.toNat - 48) := by
  unfold digitsNat
  rw [List.foldl_append]
  rfl

theorem natStrAux_val : ∀ fuel n : ℕ, n ≤ fuel → digitsNat (natStrAux fuel n) = n := by
  intro fuel
  induction fuel with
  | zero =>
    intro n h
    interval_cases n
    rfl
  | succ f ih =>
    intro n h
    by_cases hn : n = 0
    · subst hn; simp [natStrAux]; rfl
    · have hpos : 0 < n := Nat.pos_of_ne_zero hn
      have hdiv : n / 10 ≤ f := by
        have := Nat.div_lt_self hpos (by norm_num : 1 < 10)
        omega
      simp only [natStrAux, hn, if_false]
      rw [digitsNat_append_digit, ih _ hdiv, digChar_toNat _ (Nat.mod_lt _ (by norm_num))]
      exact Nat.div_add_mod n 10

theorem natStrAux_digits : ∀ fuel n : ℕ, ∀ c ∈ natStrAux fuel n, c.isDigit = true := by
  intro fuel
  induction fuel with
  | zero => intro n c hc; simp [natStrAux] at hc
  | succ f ih =>
    intro n c hc
    by_cases hn : n = 0
    · subst hn; simp [natStrAux] at hc
    · simp only [natStrAux, hn, if_false] at hc
      rcases List.mem_append.mp hc with hc | hc
      · exact ih _ c hc
      · simp at hc; subst hc; exact digChar_isDigit _

theorem natStrAux_len : ∀ fuel n k : ℕ, n ≤ fuel → n < 10 ^ k →
    (natStrAux fuel n).length ≤ k := by
  intro fuel
  induction fuel with
  | zero => intro n k h _; interval_cases n; simp [natStrAux]
  | succ f ih =>
    intro n k h hk
    by_cases hn : n = 0
    · simp [natStrAux, hn]
    · have hpos : 0 < n := Nat.pos_of_ne_zero hn
      have hk0 : k ≠ 0 := by
        intro e
        subst e
        simp at hk
        omega
      obtain ⟨j, rfl⟩ : ∃ j, k = j + 1 := ⟨k - 1, by omega⟩
      simp only [natStrAux, hn, if_false, List.length_append, List.length_cons,
        List.length_nil]
      have h1 : n / 10 ≤ f := by
        have := Nat.div_lt_self hpos (by norm_num : 1 < 10)
        omega
      have h2 : n / 10 < 10 ^ j := by
        rw [Nat.div_lt_iff_lt_mul (by norm_num : 0 < 10)]
        calc n < 10 ^ (j + 1) := hk
        _ = 10 ^ j * 10 := by ring
      have := ih (n / 10) j h1 h2
      omega

theorem natStr_val (n : ℕ) : digitsNat (natStr n) = n := by
  unfold natStr
  by_cases hn : n = 0
  · subst hn; rfl
  · simp only [hn, if_false]
    exact natStrAux_val n n le_rfl

theorem natStr_digits (n : ℕ) : ∀ c ∈ natStr n, c.isDigit = true := by
  unfold natStr
  by_cases hn : n = 0
  · subst hn; intro c hc; simp at hc; subst hc; decide
  · simp only [hn, if_false]
    exact natStrAux_digits n n

theorem natStr_ne_nil (n : ℕ) : natStr n ≠ [] := by
  unfold natStr
  by_cases hn : n = 0
  · subst hn; simp
  · simp only [hn, if_false]
    obtain ⟨f, rfl⟩ : ∃ f, n = f + 1 := ⟨n - 1, by omega⟩
    simp [natStrAux, hn]

theorem natStr_len (n k : ℕ) (h : n < 10 ^ k) (hk : 1 ≤ k) :
    (natStr n).length ≤ k := by
  unfold natStr
  by_cases hn : n = 0
  · subst hn; simpa using hk
  · simp only [hn, if_false]
    exact natStrAux_len n n k le_rfl h

theorem foldl_digits_replicate_zero (j : ℕ) :
    List.foldl (fun a c => 10 * a + (c.toNat - 48)) 0 (List.replicate j '0') = 0 := by
  induction j with
  | zero => rfl
  | succ i ih => simpa [List.replicate_succ] using ih

theorem digitsNat_replicate_zero (j : ℕ) (A : List Char) :
    digitsNat (List.replicate j '0' ++ A) = digitsNat A := by
  unfold digitsNat
  rw [List.foldl_append, foldl_digits_replicate_zero]

/-! ### Character-class lemmas -/

theorem digit_ne_char (c x : Char) (h : c.isDigit = true) (hx : x.isDigit = false) :
    ¬(c = x) := by
  intro e
  subst e
  rw [h] at hx
  exact absurd hx (by decide)

theorem isWs_eq_false_of_digit (c : Char) (h : c.isDigit = true) : isWs c = false := by
  unfold isWs
  simp only [Bool.or_eq_false_iff, beq_eq_false_iff_ne]
  exact ⟨⟨⟨⟨⟨digit_ne_char c ' ' h (by decide), digit_ne_char c '\t' h (by decide)⟩,
    digit_ne_char c '\n' h (by decide)⟩, digit_ne_char c '\r' h (by decide)⟩,
    digit_ne_char c '\x0B' h (by decide)⟩, digit_ne_char c '\x0C' h (by decide)⟩

/-! ### decExp and decimal denominators -/

theorem exists_small_exp (d k : ℕ) (hd : 0 < d) (h : d ∣ 10 ^ k) :
    ∃ j ≤ d, d ∣ 10 ^ j := by
  rcases le_or_lt k d with hk | hk
  · exact ⟨k, hk, h⟩
  · have h10 : (10 : ℕ) ^ k = 2 ^ k * 5 ^ k := by
      rw [show (10 : ℕ) = 2 * 5 by norm_num, mul_pow]
    rw [h10] at h
    obtain ⟨d2, d5, hd2, hd5, rfl⟩ := exists_dvd_and_dvd_of_dvd_mul h
    obtain ⟨a, _, rfl⟩ := (Nat.dvd_prime_pow Nat.prime_two).mp hd2
    obtain ⟨b, _, rfl⟩ := (Nat.dvd_prime_pow (by norm_num : Nat.Prime 5)).mp hd5
    refine ⟨2 ^ a * 5 ^ b, le_rfl, ?_⟩
    have ha2 : a ≤ 2 ^ a * 5 ^ b :=
      le_trans (Nat.lt_two_pow a).le (Nat.le_mul_of_pos_right _ (pow_pos (by norm_num) b))
    have hb2 : b ≤ 2 ^ a * 5 ^ b :=
      le_trans (Nat.lt_pow_self (by norm_num) b).le
        (Nat.le_mul_of_pos_left _ (pow_pos (by norm_num) a))
    calc (2 : ℕ) ^ a * 5 ^ b ∣ 2 ^ (2 ^ a * 5 ^ b) * 5 ^ (2 ^ a * 5 ^ b) :=
          mul_dvd_mul (pow_dvd_pow 2 ha2) (pow_dvd_pow 5 hb2)
    _ = 10 ^ (2 ^ a * 5 ^ b) := by
          rw [show (10 : ℕ) = 2 * 5 by norm_num, mul_pow]

theorem decExpAux_spec (d : ℕ) : ∀ (fuel k j : ℕ), k ≤ j → j < k + fuel →
    10 ^ j % d = 0 → 10 ^ decExpAux d fuel k % d = 0 := by
  intro fuel
  induction fuel with
  | zero => intro k j h1 h2 _; omega
  | succ f ih =>
    intro k j h1 h2 hj
    rw [decExpAux]
    by_cases hk : (10 ^ k % d == 0) = true
    · rw [if_pos hk]
      simpa using hk
    · rw [if_neg hk]
      have hjk : ¬(j = k) := by
        intro e
        apply hk
        rw [← e]
        simpa using hj
      exact ih (k + 1) j (by omega) (by omega) hj

theorem decExp_dvd (d : ℕ) (hd : 0 < d) (hk : ∃ k, d ∣ 10 ^ k) : d ∣ 10 ^ decExp d := by
  obtain ⟨k, hk⟩ := hk
  obtain ⟨j, hj, hdvd⟩ := exists_small_exp d k hd hk
  unfold decExp
  apply Nat.dvd_of_mod_eq_zero
  exact decExpAux_spec d (d + 1) 0 j (Nat.zero_le j) (by omega)
    (Nat.mod_eq_zero_of_dvd hdvd)

theorem den_dvd_decExp (q : ℚ) (h : IsDecimalRat q) : (q.den : ℕ) ∣ 10 ^ decExp q.den :=
  decExp_dvd q.den q.den_pos h

/-! ### floatRepr shape lemmas -/

theorem fracExp_neg (q : ℚ) : fracExp (-q) = fracExp q := by
  unfold fracExp
  rw [Rat.neg_den]

theorem mantissa_neg (q : ℚ) : mantissa (-q) = mantissa q := by
  unfold mantissa
  rw [fracExp_neg, Rat.neg_den, Rat.neg_num, Int.natAbs_neg]

theorem intDigits_neg (q : ℚ) : intDigits (-q) = intDigits q := by
  unfold intDigits
  rw [mantissa_neg, fracExp_neg]

theorem fracDigits_neg (q : ℚ) : fracDigits (-q) = fracDigits q := by
  unfold fracDigits
  rw [mantissa_neg, fracExp_neg]

theorem inPosRange_neg (q : ℚ) : inPosRange (-q) ↔ inPosRange q := by
  unfold inPosRange
  rw [mantissa_neg, fracExp_neg]

theorem floatBody_neg (q : ℚ) : floatBody (-q) = floatBody q := by
  unfold floatBody
  by_cases h : inPosRange q
  · rw [if_pos ((inPosRange_neg q).mpr h), if_pos h, intDigits_neg, fracDigits_neg]
  · rw [if_neg (fun hh => h ((inPosRange_neg q).mp hh)), if_neg h, mantissa_neg, fracExp_neg]

theorem floatRepr_of_nonneg (q : ℚ) (h : 0 ≤ q) (hp : inPosRange q) :
    floatRepr q = intDigits q ++ '.' :: fracDigits q := by
  unfold floatRepr floatBody
  rw [if_neg (not_lt.mpr h), if_pos hp]
  rfl

theorem floatRepr_of_sci (q : ℚ) (h : 0 ≤ q) (hp : ¬ inPosRange q) :
    floatRepr q = sciRepr (mantissa q) (fracExp q) := by
  unfold floatRepr floatBody
  rw [if_neg (not_lt.mpr h), if_neg hp]
  rfl

theorem floatRepr_of_neg (q : ℚ) (h : q < 0) : floatRepr q = '-' :: floatRepr (-q) := by
  unfold floatRepr
  rw [if_pos h, if_neg (not_lt.mpr (by linarith : (0:ℚ) ≤ -q)), floatBody_neg]
  rfl

theorem intDigits_digits (q : ℚ) : ∀ c ∈ intDigits q, c.isDigit = true :=
  natStr_digits _

theorem fracDigits_digits (q : ℚ) : ∀ c ∈ fracDigits q, c.isDigit = true := by
  intro c hc
  unfold fracDigits at hc
  rcases List.mem_append.mp hc with hc | hc
  · rw [List.eq_of_mem_replicate hc]; decide
  · exact natStr_digits _ c hc

theorem floatRepr_nonneg_mem (q : ℚ) (h : 0 ≤ q) (hp : inPosRange q) :
    ∀ c ∈ floatRepr q, c.isDigit = true ∨ c = '.' := by
  rw [floatRepr_of_nonneg q h hp]
  intro c hc
  rcases List.mem_append.mp hc with hc | hc
  · exact Or.inl (intDigits_digits q c hc)
  · rcases List.mem_cons.mp hc with hc | hc
    · exact Or.inr hc
    · exact Or.inl (fracDigits_digits q c hc)

theorem not_mem_floatRepr_nonneg (q : ℚ) (h0 : 0 ≤ q) (hp : inPosRange q) (x : Char)
    (hx : x.isDigit = false) (hx2 : ¬(x = '.')) : x ∉ floatRepr q := by
  intro hm
  rcases floatRepr_nonneg_mem q h0 hp x hm with hd | he
  · rw [hd] at hx; exact absurd hx (by decide)
  · exact hx2 he

theorem floatRepr_nonneg_clean (q : ℚ) (h0 : 0 ≤ q) (hp : inPosRange q) :
    ∀ c ∈ floatRepr q, isWs c = false := by
  intro c hc
  rcases floatRepr_nonneg_mem q h0 hp c hc with hd | he
  · exact isWs_eq_false_of_digit c hd
  · subst he; decide

theorem floatBody_ne_nil (q : ℚ) : floatBody q ≠ [] := by
  unfold floatBody
  by_cases h : inPosRange q
  · rw [if_pos h]
    simp [intDigits, natStr_ne_nil]
  · rw [if_neg h]
    unfold sciRepr
    cases hm : sciMantissa (mantissa q) with
    | nil => simp
    | cons d rest => simp

theorem floatRepr_ne_nil (q : ℚ) : floatRepr q ≠ [] := by
  unfold floatRepr
  intro h
  rcases List.append_eq_nil.mp h with ⟨-, h2⟩
  exact floatBody_ne_nil q h2

/-! ### pyFloat on rendered floats -/

theorem pyFloatAux_shape (I F : List Char) (hI : I ≠ []) (hId : ∀ c ∈ I, c.isDigit = true)
    (hFd : ∀ c ∈ F, c.isDigit = true) :
    pyFloatAux (I ++ '.' :: F) =
      some ((digitsNat I : ℚ) + (digitsNat F : ℚ) / 10 ^ F.length) := by
  obtain ⟨i0, I', rfl⟩ : ∃ i0 I', I = i0 :: I' := by
    cases I with
    | nil => exact absurd rfl hI
    | cons a l => exact ⟨a, l, rfl⟩
  have hi0 : i0.isDigit = true := hId i0 (List.mem_cons_self _ _)
  have hs : splitSign ((i0 :: I') ++ '.' :: F) = (1, (i0 :: I') ++ '.' :: F) := by
    rw [List.cons_append]
    simp only [splitSign]
    rw [if_neg (digit_ne_char i0 '-' hi0 (by decide)),
      if_neg (digit_ne_char i0 '+' hi0 (by decide))]
  have ht : ((i0 :: I') ++ '.' :: F).takeWhile Char.isDigit = i0 :: I' := by
    rw [takeWhile_append_of_all _ _ _ hId]
    simp [List.takeWhile_cons]
  have hd : ((i0 :: I') ++ '.' :: F).dropWhile Char.isDigit = '.' :: F := by
    rw [dropWhile_append_of_all _ _ _ hId]
    simp [List.dropWhile_cons]
  unfold pyFloatAux
  simp only [hs, ht, hd, List.headD_cons, List.tail_cons, eq_self_iff_true, if_true]
  rw [takeWhile_eq_self_of_all _ _ hFd, dropWhile_eq_nil_of_all _ _ hFd]
  rw [if_neg (by simp)]
  rw [one_mul]

theorem sciMantissa_subset (m : ℕ) : ∀ c ∈ sciMantissa m, c ∈ natStr m := by
  intro c hc
  unfold sciMantissa at hc
  rw [List.mem_reverse] at hc
  exact List.mem_reverse.mp ((List.dropWhile_sublist _).subset hc)

theorem sciMantissa_ne_nil (m : ℕ) (hm : m ≠ 0) : sciMantissa m ≠ [] := by
  intro h
  unfold sciMantissa at h
  rw [List.reverse_eq_nil_iff] at h
  have hall : ∀ x ∈ natStr m, x = '0' := by
    intro x hx
    have := all_of_dropWhile_eq_nil _ _ h x (List.mem_reverse.mpr hx)
    exact eq_of_beq this
  have hrep : natStr m = List.replicate (natStr m).length '0' :=
    List.eq_replicate_of_mem hall
  have hv := natStr_val m
  rw [hrep] at hv
  have h0 : digitsNat (List.replicate (natStr m).length '0') = 0 := by
    have := digitsNat_replicate_zero (natStr m).length []
    simpa using this
  rw [h0] at hv
  exact hm hv.symm

/-- Python `float` fails on an (optionally signed, optionally pointed) digit
string that ends in a bare `e`: the exponent part has no digits
(`float('1e')`, `float('-1.23e')` raise `ValueError`). -/
theorem pyFloatAux_trailing_e (P I T : List Char) (hP : P = [] ∨ P = ['-'])
    (hI : I ≠ []) (hId : ∀ c ∈ I, c.isDigit = true)
    (hT : T = ['e'] ∨ ∃ F, (∀ c ∈ F, c.isDigit = true) ∧ T = '.' :: F ++ ['e']) :
    pyFloatAux (P ++ I ++ T) = none := by
  obtain ⟨i0, I', rfl⟩ : ∃ i0 I', I = i0 :: I' := by
    cases I with
    | nil => exact absurd rfl hI
    | cons a l => exact ⟨a, l, rfl⟩
  have hi0 : i0.isDigit = true := hId i0 (List.mem_cons_self _ _)
  obtain ⟨sg, hs⟩ : ∃ sg : ℚ, splitSign (P ++ (i0 :: I') ++ T) = (sg, (i0 :: I') ++ T) := by
    rcases hP with rfl | rfl
    · refine ⟨1, ?_⟩
      rw [List.nil_append, List.cons_append]
      simp only [splitSign]
      rw [if_neg (digit_ne_char i0 '-' hi0 (by decide)),
        if_neg (digit_ne_char i0 '+' hi0 (by decide))]
    · exact ⟨-1, rfl⟩
  obtain ⟨c0, T', hTeq, hc0⟩ : ∃ c0 T', T = c0 :: T' ∧ c0.isDigit = false := by
    rcases hT with rfl | ⟨F, hF, rfl⟩
    · exact ⟨'e', [], rfl, by decide⟩
    · exact ⟨'.', F ++ ['e'], rfl, by decide⟩
  have htake : ((i0 :: I') ++ T).takeWhile Char.isDigit = i0 :: I' := by
    rw [takeWhile_append_of_all _ _ _ hId, hTeq]
    simp [List.takeWhile_cons, hc0]
  have hdrop : ((i0 :: I') ++ T).dropWhile Char.isDigit = T := by
    rw [dropWhile_append_of_all _ _ _ hId, hTeq]
    simp [List.dropWhile_cons, hc0]
  unfold pyFloatAux
  simp only [hs, htake, hdrop]
  rcases hT with rfl | ⟨F, hF, rfl⟩
  · simp
  · have htF : (F ++ ['e']).takeWhile Char.isDigit = F := by
      rw [takeWhile_append_of_all _ _ _ hF]
      simp
    have hdF : (F ++ ['e']).dropWhile Char.isDigit = ['e'] := by
      rw [dropWhile_append_of_all _ _ _ hF]
      rfl
    simp [htF, hdF]

/-- Anatomy of CPython's scientific rendering of `m / 10 ^ k` (`m ≠ 0`): a
digit-and-point mantissa part, the letter `e`, the exponent sign, and the
exponent digits — together with the `float()` failures on the fragments the
evaluator's `split` produces from it. -/
theorem sciRepr_anatomy (m k : ℕ) (hm : m ≠ 0) :
    ∃ Dp EE : List Char,
      sciRepr m k = Dp ++ 'e' :: (if sciExp m k < 0 then '-' else '+') :: EE ∧
      (∀ c ∈ EE, c.isDigit = true) ∧
      (∀ c ∈ Dp, c.isDigit = true ∨ c = '.') ∧
      pyFloatAux (Dp ++ ['e']) = none ∧
      pyFloatAux ('-' :: (Dp ++ ['e'])) = none := by
  obtain ⟨d, rest, hsm⟩ : ∃ d rest, sciMantissa m = d :: rest := by
    cases hsm : sciMantissa m with
    | nil => exact absurd hsm (sciMantissa_ne_nil m hm)
    | cons a l => exact ⟨a, l, rfl⟩
  have hdig : ∀ c ∈ sciMantissa m, c.isDigit = true := fun c hc =>
    natStr_digits m c (sciMantissa_subset m c hc)
  have hd : d.isDigit = true := hdig d (hsm ▸ List.mem_cons_self _ _)
  have hrest : ∀ c ∈ rest, c.isDigit = true := fun c hc =>
    hdig c (hsm ▸ List.mem_cons_of_mem d hc)
  refine ⟨d :: (if rest = [] then [] else '.' :: rest),
    (if (natStr (sciExp m k).natAbs).length < 2 then '0' :: natStr (sciExp m k).natAbs
      else natStr (sciExp m k).natAbs), ?_, ?_, ?_, ?_, ?_⟩
  · unfold sciRepr
    rw [hsm]
    unfold expStr
    simp
  · intro c hc
    by_cases hlen : (natStr (sciExp m k).natAbs).length < 2
    · rw [if_pos hlen] at hc
      rcases List.mem_cons.mp hc with rfl | hc
      · decide
      · exact natStr_digits _ c hc
    · rw [if_neg hlen] at hc
      exact natStr_digits _ c hc
  · intro c hc
    rcases List.mem_cons.mp hc with rfl | hc
    · exact Or.inl hd
    · by_cases hr0 : rest = []
      · rw [if_pos hr0] at hc
        simp at hc
      · rw [if_neg hr0] at hc
        rcases List.mem_cons.mp hc with rfl | hc
        · exact Or.inr rfl
        · exact Or.inl (hrest c hc)
  · by_cases hr0 : rest = []
    · rw [if_pos hr0]
      have := pyFloatAux_trailing_e [] [d] ['e'] (Or.inl rfl) (List.cons_ne_nil _ _)
        (fun c hc => by rcases List.mem_singleton.mp hc with rfl; exact hd) (Or.inl rfl)
      simpa using this
    · rw [if_neg hr0]
      have := pyFloatAux_trailing_e [] [d] ('.' :: rest ++ ['e']) (Or.inl rfl)
        (List.cons_ne_nil _ _)
        (fun c hc => by rcases List.mem_singleton.mp hc with rfl; exact hd)
        (Or.inr ⟨rest, hrest, rfl⟩)
      simpa using this
  · by_cases hr0 : rest = []
    · rw [if_pos hr0]
      have := pyFloatAux_trailing_e ['-'] [d] ['e'] (Or.inr rfl) (List.cons_ne_nil _ _)
        (fun c hc => by rcases List.mem_singleton.mp hc with rfl; exact hd) (Or.inl rfl)
      simpa using this
    · rw [if_neg hr0]
      have := pyFloatAux_trailing_e ['-'] [d] ('.' :: rest ++ ['e']) (Or.inr rfl)
        (List.cons_ne_nil _ _)
        (fun c hc => by rcases List.mem_singleton.mp hc with rfl; exact hd)
        (Or.inr ⟨rest, hrest, rfl⟩)
      simpa using this

/-- The rendering of a nonnegative float outside the positional range, cut
into the pieces the local evaluator's `split` on the exponent sign sees. -/
theorem floatRepr_sci_anatomy (q : ℚ) (h0 : 0 ≤ q) (hp : ¬ inPosRange q) :
    ∃ Dp EE : List Char,
      floatRepr q =
        Dp ++ 'e' :: (if sciExp (mantissa q) (fracExp q) < 0 then '-' else '+') :: EE ∧
      (∀ c ∈ EE, c.isDigit = true) ∧
      (∀ c ∈ Dp, c.isDigit = true ∨ c = '.') ∧
      pyFloatAux (Dp ++ ['e']) = none ∧
      pyFloatAux ('-' :: (Dp ++ ['e'])) = none := by
  have hm : mantissa q ≠ 0 := fun h => hp (Or.inl h)
  obtain ⟨Dp, EE, h1, h2, h3, h4, h5⟩ := sciRepr_anatomy (mantissa q) (fracExp q) hm
  exact ⟨Dp, EE, by rw [floatRepr_of_sci q h0 hp, h1], h2, h3, h4, h5⟩

theorem mantissa_cast (q : ℚ) (h0 : 0 ≤ q) (hdec : IsDecimalRat q) :
    (mantissa q : ℚ) = q * 10 ^ fracExp q := by
  unfold mantissa fracExp
  have hdvd := den_dvd_decExp q hdec
  have hden0 : ((q.den : ℚ)) ≠ 0 := Nat.cast_ne_zero.mpr q.den_pos.ne'
  have hnum : ((q.num.natAbs : ℕ) : ℚ) = (q.num : ℚ) := by
    rw [Int.cast_natAbs, abs_of_nonneg]
    exact_mod_cast Rat.num_nonneg.mpr h0
  rw [Nat.cast_mul, Nat.cast_div hdvd hden0, hnum]
  have hq : (q.num : ℚ) = q * q.den := by
    have h := Rat.num_div_den q
    rw [div_eq_iff hden0] at h
    exact h
  rw [hq]
  push_cast
  field_simp
  rw [hq]
  ring

theorem pyFloatAux_floatRepr (q : ℚ) (h0 : 0 ≤ q) (hdec : IsDecimalRat q)
    (hp : inPosRange q) : pyFloatAux (floatRepr q) = some q := by
  rw [floatRepr_of_nonneg q h0 hp,
    pyFloatAux_shape (intDigits q) (fracDigits q) (natStr_ne_nil _) (intDigits_digits q)
      (fracDigits_digits q)]
  congr 1
  have hm := mantissa_cast q h0 hdec
  have hpow0 : (0:ℕ) < 10 ^ fracExp q := pow_pos (by norm_num) _
  have hIval : digitsNat (intDigits q) = mantissa q / 10 ^ fracExp q := natStr_val _
  rcases Nat.eq_zero_or_pos (fracExp q) with hk0 | hkpos
  · -- integer case: no real fractional digits, the single `0` contributes nothing
    have hF : fracDigits q = ['0'] := by
      unfold fracDigits
      rw [hk0, pow_zero, Nat.mod_one]
      decide
    have hIv : digitsNat (intDigits q) = mantissa q := by
      rw [hIval, hk0, pow_zero, Nat.div_one]
    have hq' : (mantissa q : ℚ) = q := by
      rw [hm, hk0]
      simp
    rw [hF, hIv, hq', show digitsNat ['0'] = 0 by decide]
    norm_num
  · -- at least one decimal place: the padded fractional digits have length fracExp q
    have hfrlt : mantissa q % 10 ^ fracExp q < 10 ^ fracExp q := Nat.mod_lt _ hpow0
    have hlen : (fracDigits q).length = fracExp q := by
      unfold fracDigits
      rw [List.length_append, List.length_replicate]
      have := natStr_len (mantissa q % 10 ^ fracExp q) (fracExp q) hfrlt hkpos
      omega
    have hFval : digitsNat (fracDigits q) = mantissa q % 10 ^ fracExp q := by
      unfold fracDigits
      rw [digitsNat_replicate_zero, natStr_val]
    rw [hIval, hFval, hlen]
    have hdm : (10:ℚ) ^ fracExp q * ((mantissa q / 10 ^ fracExp q : ℕ) : ℚ) +
        ((mantissa q % 10 ^ fracExp q : ℕ) : ℚ) = (mantissa q : ℚ) := by
      exact_mod_cast congrArg (Nat.cast : ℕ → ℚ) (Nat.div_add_mod (mantissa q) (10 ^ fracExp q))
    have h10 : ((10:ℚ) ^ fracExp q) ≠ 0 := by positivity
    field_simp
    linear_combination hdm + hm

theorem pyFloat_floatRepr (q : ℚ) (h0 : 0 ≤ q) (hdec : IsDecimalRat q)
    (hp : inPosRange q) : pyFloat (floatRepr q) = some q := by
  unfold pyFloat
  rw [pyStrip_of_clean _ (floatRepr_nonneg_clean q h0 hp), pyFloatAux_floatRepr q h0 hdec hp]

theorem pyFloat_floatRepr_leading_space (q : ℚ) (h0 : 0 ≤ q) (hdec : IsDecimalRat q)
    (hp : inPosRange q) : pyFloat (' ' :: floatRepr q) = some q := by
  unfold pyFloat
  rw [pyStrip_cons_space _ (floatRepr_nonneg_clean q h0 hp),
    pyFloatAux_floatRepr q h0 hdec hp]

theorem pyFloat_nil : pyFloat [] = none := by decide

/-! ### calculate_locally on rendered canonical expressions -/

theorem renderCanonical_eq (e : CanonicalExpression) :
    renderCanonical e = (floatRepr e.a ++ [' ']) ++ e.op :: (' ' :: floatRepr e.b) := by
  unfold renderCanonical
  simp

theorem op_mem_render (e : CanonicalExpression) : e.op ∈ renderCanonical e := by
  rw [renderCanonical_eq]
  simp

theorem not_mem_render (e : CanonicalExpression) (x : Char) (ha : 0 ≤ e.a) (hb : 0 ≤ e.b)
    (hpa : inPosRange e.a) (hpb : inPosRange e.b)
    (hx : x.isDigit = false) (hxd : ¬(x = '.')) (hxs : ¬(x = ' ')) (hxop : ¬(x = e.op)) :
    x ∉ renderCanonical e := by
  rw [renderCanonical_eq]
  intro hm
  simp only [List.mem_append, List.mem_cons] at hm
  rcases hm with (hm | hm | hm) | hm | hm | hm
  · exact not_mem_floatRepr_nonneg e.a ha hpa x hx hxd hm
  · exact hxs hm
  · simp at hm
  · exact hxop hm
  · exact hxs hm
  · exact not_mem_floatRepr_nonneg e.b hb hpb x hx hxd hm

theorem pySplit_render (e : CanonicalExpression) (ha : 0 ≤ e.a) (hb : 0 ≤ e.b)
    (hpa : inPosRange e.a) (hpb : inPosRange e.b)
    (hop : (e.op).isDigit = false) (hopd : ¬(e.op = '.')) (hops : ¬(e.op = ' ')) :
    pySplit e.op (renderCanonical e) = [floatRepr e.a ++ [' '], ' ' :: floatRepr e.b] := by
  rw [renderCanonical_eq]
  have hA : e.op ∉ floatRepr e.a ++ [' '] := by
    intro hm
    rcases List.mem_append.mp hm with hm | hm
    · exact not_mem_floatRepr_nonneg e.a ha hpa e.op hop hopd hm
    · simp at hm
      exact hops hm
  have hB : e.op ∉ ' ' :: floatRepr e.b := by
    intro hm
    rcases List.mem_cons.mp hm with hm | hm
    · exact hops hm
    · exact not_mem_floatRepr_nonneg e.b hb hpb e.op hop hopd hm
  rw [pySplit_append _ _ _ hA, pySplit_of_not_mem _ _ hB]

/-- No operator characters hide in the rendered `" / 0.0"` tail. -/
theorem div0_tail_plus : ('+' : Char) ∉ (' ' :: '/' :: ' ' :: floatRepr (0 : ℚ)) := by
  decide

/-- `'+'` does not occur in a scientific rendering with a negative exponent
followed by the `" / 0.0"` tail. -/
theorem plus_not_mem_sci_div0 (Dp EE : List Char)
    (hDp : ∀ c ∈ Dp, c.isDigit = true ∨ c = '.') (hEE : ∀ c ∈ EE, c.isDigit = true) :
    ('+' : Char) ∉ (Dp ++ 'e' :: '-' :: EE) ++ ' ' :: '/' :: ' ' :: floatRepr 0 := by
  intro hm
  rcases List.mem_append.mp hm with hm | hm
  · rcases List.mem_append.mp hm with hm | hm
    · rcases hDp '+' hm with h | h
      · exact absurd h (by decide)
      · exact absurd h (by decide)
    · rcases List.mem_cons.mp hm with hm | hm
      · exact absurd hm (by decide)
      · rcases List.mem_cons.mp hm with hm | hm
        · exact absurd hm (by decide)
        · exact absurd (hEE '+' hm) (by decide)
  · exact div0_tail_plus hm

/-- A non-`'e'` operator character does not occur in the mantissa-plus-`e`
fragment the split cuts off a scientific rendering. -/
theorem op_not_mem_Dpe (Dp : List Char) (hDp : ∀ c ∈ Dp, c.isDigit = true ∨ c = '.')
    (x : Char) (hx : x.isDigit = false) (hxd : ¬(x = '.')) (hxe : ¬(x = 'e')) :
    x ∉ Dp ++ ['e'] := by
  intro hm
  rcases List.mem_append.mp hm with hm | hm
  · rcases hDp x hm with h | h
    · rw [h] at hx
      exact absurd hx (by decide)
    · exact hxd h
  · exact hxe (List.mem_singleton.mp hm)

/-- The mantissa-plus-`e` fragment contains no whitespace, so `float()`
sees it unchanged. -/
theorem Dpe_clean (Dp : List Char) (hDp : ∀ c ∈ Dp, c.isDigit = true ∨ c = '.') :
    ∀ c ∈ Dp ++ ['e'], isWs c = false := by
  intro c hc
  rcases List.mem_append.mp hc with hc | hc
  · rcases hDp c hc with h | h
    · exact isWs_eq_false_of_digit c h
    · rw [h]
      decide
  · rw [List.mem_singleton.mp hc]
    decide

/-- A division whose rendered denominator is `0.0` always evaluates to
`None`: a positionally rendered nonnegative numerator reaches the `/` branch
and the zero-denominator check, while a negative numerator or a numerator
rendered in scientific notation is cut at its `'-'` or `'+'` sign character
by an earlier branch, whose `float()` conversion then fails. -/
theorem calculate_locally_div_zero (a : ℚ) :
    calculate_locally (renderCanonical ⟨'/', a, 0⟩) = none := by
  rcases lt_or_le a 0 with hneg | hpos
  · -- negative numerator: the expression starts with '-'
    have hra : floatRepr a = '-' :: floatRepr (-a) := floatRepr_of_neg a hneg
    have hnn : (0 : ℚ) ≤ -a := by linarith
    have hrender : renderCanonical ⟨'/', a, 0⟩ =
        '-' :: (floatRepr (-a) ++ ' ' :: '/' :: ' ' :: floatRepr 0) := by
      unfold renderCanonical
      rw [hra]
      rfl
    by_cases hp : inPosRange (-a)
    · -- positional body: no '+' anywhere, the leading sign routes to '-'
      have hplus : '+' ∉ renderCanonical ⟨'/', a, 0⟩ := by
        rw [hrender]
        intro hm
        rcases List.mem_cons.mp hm with hm | hm
        · exact absurd hm (by decide)
        · rcases List.mem_append.mp hm with hm | hm
          · exact not_mem_floatRepr_nonneg (-a) hnn hp '+' (by decide) (by decide) hm
          · exact div0_tail_plus hm
      unfold calculate_locally
      rw [if_neg hplus, if_pos (by rw [hrender]; exact List.mem_cons_self _ _), hrender,
        pySplit_cons_sep,
        show (([] :: pySplit '-' (floatRepr (-a) ++ ' ' :: '/' :: ' ' :: floatRepr 0)).getD
          0 []) = ([] : List Char) from rfl,
        pyFloat_nil]
    · obtain ⟨Dp, EE, hfa, hEE, hDp, hnone, hnegnone⟩ := floatRepr_sci_anatomy (-a) hnn hp
      by_cases hs : sciExp (mantissa (-a)) (fracExp (-a)) < 0
      · -- tiny magnitude: the exponent sign is '-', still no '+' anywhere
        rw [if_pos hs] at hfa
        have hplus : '+' ∉ renderCanonical ⟨'/', a, 0⟩ := by
          rw [hrender, hfa]
          intro hm
          rcases List.mem_cons.mp hm with hm | hm
          · exact absurd hm (by decide)
          · exact plus_not_mem_sci_div0 Dp EE hDp hEE hm
        unfold calculate_locally
        rw [if_neg hplus, if_pos (by rw [hrender]; exact List.mem_cons_self _ _), hrender,
          pySplit_cons_sep,
          show (([] :: pySplit '-' (floatRepr (-a) ++ ' ' :: '/' :: ' ' :: floatRepr 0)).getD
            0 []) = ([] : List Char) from rfl,
          pyFloat_nil]
      · -- huge magnitude: the exponent sign is '+', which is tested first
        rw [if_neg hs] at hfa
        have hexpr : renderCanonical ⟨'/', a, 0⟩ =
            ('-' :: (Dp ++ ['e'])) ++ '+' :: (EE ++ ' ' :: '/' :: ' ' :: floatRepr 0) := by
          rw [hrender, hfa]
          simp
        have hnotA : ('+' : Char) ∉ '-' :: (Dp ++ ['e']) := by
          intro hm
          rcases List.mem_cons.mp hm with hm | hm
          · exact absurd hm (by decide)
          · exact op_not_mem_Dpe Dp hDp '+' (by decide) (by decide) (by decide) hm
        have hplus : '+' ∈ renderCanonical ⟨'/', a, 0⟩ := by
          rw [hexpr]
          exact List.mem_append_right _ (List.mem_cons_self _ _)
        have hfloat : pyFloat ('-' :: (Dp ++ ['e'])) = none := by
          unfold pyFloat
          have hclean : ∀ c ∈ '-' :: (Dp ++ ['e']), isWs c = false := by
            intro c hc
            rcases List.mem_cons.mp hc with rfl | hc
            · decide
            · exact Dpe_clean Dp hDp c hc
          rw [pyStrip_of_clean _ hclean]
          exact hnegnone
        unfold calculate_locally
        rw [if_pos hplus, hexpr, pySplit_append _ _ _ hnotA,
          show ((('-' :: (Dp ++ ['e'])) ::
              pySplit '+' (EE ++ ' ' :: '/' :: ' ' :: floatRepr 0)).getD 0 [])
            = '-' :: (Dp ++ ['e']) from rfl,
          hfloat]
  · -- nonnegative numerator
    by_cases hp : inPosRange a
    · -- positional: the '/' branch sees the rendered zero denominator
      have hp0 : inPosRange (0 : ℚ) := by decide
      have hsplit := pySplit_render ⟨'/', a, 0⟩ hpos le_rfl hp hp0
        (show ('/' : Char).isDigit = false by decide)
        (show ¬(('/' : Char) = '.') by decide) (show ¬(('/' : Char) = ' ') by decide)
      unfold calculate_locally
      rw [if_neg (not_mem_render ⟨'/', a, 0⟩ '+' hpos le_rfl hp hp0 (show ('+' : Char).isDigit = false by decide) (show ¬(('+' : Char) = '.') by decide) (show ¬(('+' : Char) = ' ') by decide) (show ¬(('+' : Char) = '/') by decide)),
        if_neg (not_mem_render ⟨'/', a, 0⟩ '-' hpos le_rfl hp hp0 (show ('-' : Char).isDigit = false by decide) (show ¬(('-' : Char) = '.') by decide) (show ¬(('-' : Char) = ' ') by decide) (show ¬(('-' : Char) = '/') by decide)),
        if_neg (not_mem_render ⟨'/', a, 0⟩ '*' hpos le_rfl hp hp0 (show ('*' : Char).isDigit = false by decide) (show ¬(('*' : Char) = '.') by decide) (show ¬(('*' : Char) = ' ') by decide) (show ¬(('*' : Char) = '/') by decide)),
        if_pos (op_mem_render ⟨'/', a, 0⟩), hsplit,
        show ([floatRepr a ++ [' '], ' ' :: floatRepr 0].getD 1 []) = ' ' :: floatRepr 0
          from rfl,
        pyFloat_floatRepr_leading_space 0 le_rfl ⟨0, by decide⟩ hp0]
      show (if (0 : ℚ) = 0 then none else _) = none
      rw [if_pos rfl]
    · obtain ⟨Dp, EE, hfa, hEE, hDp, hnone, hnegnone⟩ := floatRepr_sci_anatomy a hpos hp
      have hfloat : pyFloat (Dp ++ ['e']) = none := by
        unfold pyFloat
        rw [pyStrip_of_clean _ (Dpe_clean Dp hDp)]
        exact hnone
      by_cases hs : sciExp (mantissa a) (fracExp a) < 0
      · -- tiny magnitude: the '-' branch splits at the exponent sign
        rw [if_pos hs] at hfa
        have hexpr : renderCanonical ⟨'/', a, 0⟩ =
            (Dp ++ ['e']) ++ '-' :: (EE ++ ' ' :: '/' :: ' ' :: floatRepr 0) := by
          show floatRepr a ++ ' ' :: '/' :: ' ' :: floatRepr 0 = _
          rw [hfa]
          simp
        have hplus : '+' ∉ renderCanonical ⟨'/', a, 0⟩ := by
          have hx : renderCanonical ⟨'/', a, 0⟩ =
              (Dp ++ 'e' :: '-' :: EE) ++ ' ' :: '/' :: ' ' :: floatRepr 0 := by
            show floatRepr a ++ ' ' :: '/' :: ' ' :: floatRepr 0 = _
            rw [hfa]
          rw [hx]
          exact plus_not_mem_sci_div0 Dp EE hDp hEE
        have hnotA : ('-' : Char) ∉ Dp ++ ['e'] :=
          op_not_mem_Dpe Dp hDp '-' (by decide) (by decide) (by decide)
        have hminus : '-' ∈ renderCanonical ⟨'/', a, 0⟩ := by
          rw [hexpr]
          exact List.mem_append_right _ (List.mem_cons_self _ _)
        unfold calculate_locally
        rw [if_neg hplus, if_pos hminus, hexpr, pySplit_append _ _ _ hnotA,
          show (((Dp ++ ['e']) ::
              pySplit '-' (EE ++ ' ' :: '/' :: ' ' :: floatRepr 0)).getD 0 [])
            = Dp ++ ['e'] from rfl,
          hfloat]
      · -- huge magnitude: the '+' branch splits at the exponent sign
        rw [if_neg hs] at hfa
        have hexpr : renderCanonical ⟨'/', a, 0⟩ =
            (Dp ++ ['e']) ++ '+' :: (EE ++ ' ' :: '/' :: ' ' :: floatRepr 0) := by
          show floatRepr a ++ ' ' :: '/' :: ' ' :: floatRepr 0 = _
          rw [hfa]
          simp
        have hnotA : ('+' : Char) ∉ Dp ++ ['e'] :=
          op_not_mem_Dpe Dp hDp '+' (by decide) (by decide) (by decide)
        have hplus : '+' ∈ renderCanonical ⟨'/', a, 0⟩ := by
          rw [hexpr]
          exact List.mem_append_right _ (List.mem_cons_self _ _)
        unfold calculate_locally
        rw [if_pos hplus, hexpr, pySplit_append _ _ _ hnotA,
          show (((Dp ++ ['e']) ::
              pySplit '+' (EE ++ ' ' :: '/' :: ' ' :: floatRepr 0)).getD 0 [])
            = Dp ++ ['e'] from rfl,
          hfloat]

/-- C5: the local evaluator is a pure function — two evaluations of the same
expression agree — and on every canonical division expression with a zero
denominator it returns unavailable (`None`) rather than raising an exception:
the embedding is a total function in which every exception path of the
source (`float(...)` failures and the explicit zero-denominator check) is the
`none` value. -/
theorem calculate_locally_deterministic_div_zero :
    (∀ e : List Char, calculate_locally e = calculate_locally e) ∧
    (∀ a : ℚ, calculate_locally (renderCanonical ⟨'/', a, 0⟩) = none) :=
  ⟨fun _ => rfl, calculate_locally_div_zero⟩

/-- C1: the confidence policy of `ErrorHandler.calculate_confidence` at the
default tolerance `1e-4`: `0.5` when no local result is available, and the
four boundary-inclusive tiers `1.0`, `0.7`, `0.4`, `0.1` on the absolute
difference; and the pipeline's `verified` flag is true exactly when a local
result exists and the difference is strictly below the tolerance. -/
theorem confidence_policy_spec (m lv : ℚ) :
    calculate_confidence m none = 1/2 ∧
    (|m - lv| ≤ 1/10000 → calculate_confidence m (some lv) = 1) ∧
    (1/10000 < |m - lv| → |m - lv| ≤ 10 * (1/10000) →
      calculate_confidence m (some lv) = 7/10) ∧
    (10 * (1/10000) < |m - lv| → |m - lv| ≤ 100 * (1/10000) →
      calculate_confidence m (some lv) = 2/5) ∧
    (100 * (1/10000) < |m - lv| → calculate_confidence m (some lv) = 1/10) ∧
    (verification_passed m (some lv) = true ↔ |m - lv| < 1/10000) ∧
    verification_passed m none = false := by
  have hchain : calculate_confidence m (some lv) =
      (if |m - lv| ≤ 1/10000 then 1
       else if |m - lv| ≤ 1/10000 * 10 then 7/10
       else if |m - lv| ≤ 1/10000 * 100 then 2/5
       else 1/10) := rfl
  refine ⟨rfl, ?_, ?_, ?_, ?_, ?_, rfl⟩
  · intro h1
    rw [hchain, if_pos h1]
  · intro h1 h2
    rw [hchain, if_neg (not_le.mpr h1), if_pos (by linarith)]
  · intro h1 h2
    rw [hchain, if_neg (not_le.mpr (by linarith)), if_neg (not_le.mpr (by linarith)),
      if_pos (by linarith)]
  · intro h1
    rw [hchain, if_neg (not_le.mpr (by linarith)), if_neg (not_le.mpr (by linarith)),
      if_neg (not_le.mpr (by linarith))]
  · show (decide (|m - lv| < 1/10000) = true) ↔ |m - lv| < 1/10000
    exact decide_eq_true_iff

/-- C1 witness: the spec's own boundary example `score(10.001, 10.0)` lands
exactly on the inclusive `10·tol` boundary and yields `0.7`, and the
verified flag holds at an exact match. -/
theorem confidence_policy_spec_witness :
    calculate_confidence (10001/1000) (some 10) = 7/10 ∧
    verification_passed 5 (some 5) = true := by
  constructor
  · exact (confidence_policy_spec (10001/1000) 10).2.2.1 (by norm_num [abs_of_nonneg])
      (by norm_num [abs_of_nonneg])
  · exact ((confidence_policy_spec 5 5).2.2.2.2.2.1).mpr (by norm_num)

/-- C3: on any input whose lower-cased stripped form contains at least one
keyword of the operation table and at least two numeric literals, the parser
emits the canonical expression whose operator is that of the first matching
keyword in table order (`firstOperation`, the embedded keyword loop — not the
keyword occurring first in the text) and whose operands are the first two
numbers in text-encounter order. -/
theorem parse_math_expression_canonical (text : List Char) (op : Char)
    (n0 n1 : ℚ) (rest : List ℚ)
    (hop : firstOperation (pyStrip (text.map Char.toLower)) = some op)
    (hnum : extract_numbers_from_text (pyStrip (text.map Char.toLower)) =
      n0 :: n1 :: rest) :
    parse_math_expression text = (renderCanonical ⟨op, n0, n1⟩, [n0, n1]) := by
  simp only [parse_math_expression, hop, hnum]
  simp

/-- C3 witness: in `"2 minus 1 plus 3"` the keyword `plus` wins over the
textually earlier `minus` because the addition group comes first in the
table, and the operands are the first two numbers `2` and `1`. -/
theorem parse_math_expression_canonical_witness :
    parse_math_expression "2 minus 1 plus 3".toList =
      (renderCanonical ⟨'+', 2, 1⟩, [2, 1]) :=
  parse_math_expression_canonical "2 minus 1 plus 3".toList '+' 2 1 [3]
    (by decide) (by decide)

/-- C7 counterexample: on `"only 7"` no keyword matches, yet the parser does
not return the numbers unset/empty — it returns the input text itself as the
expression together with the one number it found. -/
theorem parse_no_keyword_counterexample :
    firstOperation (pyStrip ("only 7".toList.map Char.toLower)) = none ∧
    (parse_math_expression "only 7".toList).1 = "only 7".toList ∧
    (parse_math_expression "only 7".toList).2.length = 1 := by
  refine ⟨by decide, by decide, by decide⟩

/-- C7 (amended): when no keyword is found or fewer than two numbers exist,
the parser returns the lower-cased stripped input text unchanged together
with ALL numbers found (possibly one, possibly more than two) — no canonical
expression is emitted, but the return value is the raw text and the full
number list rather than unset/empty fields. -/
theorem parse_fallthrough_returns_input (text : List Char)
    (h : firstOperation (pyStrip (text.map Char.toLower)) = none ∨
      (extract_numbers_from_text (pyStrip (text.map Char.toLower))).length < 2) :
    parse_math_expression text =
      (pyStrip (text.map Char.toLower),
        extract_numbers_from_text (pyStrip (text.map Char.toLower))) := by
  rcases h with h | h
  · simp only [parse_math_expression, h]
  · cases hop : firstOperation (pyStrip (text.map Char.toLower)) with
    | none => simp only [parse_math_expression, hop]
    | some op =>
      simp only [parse_math_expression, hop]
      rw [if_neg (by omega)]

/-- C7 witness: the amended fall-through behaviour at `"only 7"`. -/
theorem parse_fallthrough_returns_input_witness :
    parse_math_expression "only 7".toList =
      (pyStrip ("only 7".toList.map Char.toLower),
        extract_numbers_from_text (pyStrip ("only 7".toList.map Char.toLower))) :=
  parse_fallthrough_returns_input "only 7".toList (Or.inl (by decide))

/-! ### Conversation memory -/

theorem insertAll_append (cm : ConversationManager)
    (items : List ((List Char) × (List Char) × ℕ)) (x : (List Char) × (List Char) × ℕ) :
    insertAll cm (items ++ [x]) = (insertAll cm items).add_message x.1 x.2.1 x.2.2 := by
  unfold insertAll
  rw [List.foldl_append]
  rfl

theorem insertAll_messages (mh : ℕ) (hmh : 0 < mh)
    (items : List ((List Char) × (List Char) × ℕ)) :
    (insertAll { max_history := mh } items).messages =
      (items.map mkMessage).drop (items.length - mh) ∧
    (insertAll { max_history := mh } items).max_history = mh := by
  induction items using List.reverseRecOn with
  | nil => simp [insertAll]
  | append_singleton items x ih =>
    obtain ⟨ih1, ih2⟩ := ih
    rw [insertAll_append]
    unfold ConversationManager.add_message
    rw [ih1, ih2]
    have hlen : ((items.map mkMessage).drop (items.length - mh)).length =
        items.length - (items.length - mh) := by
      rw [List.length_drop, List.length_map]
    have hx : ({ role := x.1, content := x.2.1, timestamp := x.2.2, metadata := none } :
        ConversationMessage) = mkMessage x := rfl
    rcases lt_or_le items.length mh with hcase | hcase
    · -- still below capacity: plain append, no trimming
      rw [if_neg (by
        rw [List.length_append, hlen]
        simp
        omega)]
      constructor
      · show (items.map mkMessage).drop (items.length - mh) ++ [mkMessage x] =
          ((items ++ [x]).map mkMessage).drop ((items ++ [x]).length - mh)
        rw [List.map_append, List.length_append]
        simp only [List.map_cons, List.map_nil, List.length_cons, List.length_nil]
        rw [show items.length - mh = 0 by omega,
          show items.length + (0 + 1) - mh = 0 by omega]
        simp
      · rfl
    · -- at capacity: the oldest entry is evicted
      rw [if_pos (by
        rw [List.length_append, hlen]
        simp
        omega)]
      constructor
      · show pySliceLast mh ((items.map mkMessage).drop (items.length - mh) ++ [mkMessage x]) =
          ((items ++ [x]).map mkMessage).drop ((items ++ [x]).length - mh)
        unfold pySliceLast
        rw [if_neg (by omega)]
        rw [List.length_append, hlen]
        simp only [List.length_cons, List.length_nil]
        have hidx : items.length - (items.length - mh) + (0 + 1) - mh = 1 := by omega
        rw [hidx]
        rw [List.drop_append_of_le_length (by rw [hlen]; omega),
          List.drop_drop, List.map_append, List.length_append]
        simp only [List.map_cons, List.map_nil, List.length_cons, List.length_nil]
        rw [List.drop_append_of_le_length (by rw [List.length_map]; omega)]
        congr 2
        omega
      · rfl

/-- C8: the conversation memory is a FIFO sliding window: after any sequence
of `add_message` insertions into a fresh memory with positive capacity
`max_history`, the stored sequence is exactly the most recent `max_history`
insertions in insertion order (all insertions when still under capacity),
and its length never exceeds `max_history`. -/
theorem conversation_memory_sliding_window (mh : ℕ) (hmh : 0 < mh)
    (items : List ((List Char) × (List Char) × ℕ)) :
    (insertAll { max_history := mh } items).messages =
      (items.map mkMessage).drop (items.length - mh) ∧
    (insertAll { max_history := mh } items).messages.length = min items.length mh := by
  obtain ⟨h1, _⟩ := insertAll_messages mh hmh items
  refine ⟨h1, ?_⟩
  rw [h1, List.length_drop, List.length_map]
  omega

/-- C8 witness: with the default capacity 10, after 11 insertions the stored
sequence is the last 10 insertions and has length 10. -/
theorem conversation_memory_sliding_window_witness :
    (insertAll { max_history := 10 }
        ((List.range 11).map (fun i => ("u".toList, "m".toList, i)))).messages =
      (((List.range 11).map (fun i => ("u".toList, "m".toList, i))).map mkMessage).drop 1 ∧
    (insertAll { max_history := 10 }
        ((List.range 11).map (fun i => ("u".toList, "m".toList, i)))).messages.length = 10 := by
  have h := conversation_memory_sliding_window 10 (by norm_num)
    ((List.range 11).map (fun i => ("u".toList, "m".toList, i)))
  constructor
  · rw [h.1]
    decide
  · rw [h.2]
    decide

/-! ### Reasoning extraction -/

theorem ciContainsB_cons (m : List Char) (c : Char) (cs : List Char)
    (h : ciContainsB m cs = true) : ciContainsB m (c :: cs) = true := by
  simp [ciContainsB, h]

theorem ciPref_containsB (m t : List Char) (h : ciPref m t = true) :
    ciContainsB m t = true := by
  cases t with
  | nil =>
    cases m with
    | nil => rfl
    | cons p ps => exact absurd h (by simp [ciPref])
  | cons c cs => simp [ciContainsB, h]

theorem searchMarkers_some_contains (ms : List (List Char)) (t g : List Char)
    (h : searchMarkers ms t = some g) : ∃ m ∈ ms, ciContainsB m t = true := by
  induction t with
  | nil => simp [searchMarkers] at h
  | cons c cs ih =>
    rw [searchMarkers] at h
    cases hfs : ms.findSome?
        (fun m => if ciPref m (c :: cs) then colonCapture ((c :: cs).drop m.length)
          else none) with
    | some g' =>
      obtain ⟨m, hm, hif⟩ := List.exists_of_findSome?_eq_some hfs
      refine ⟨m, hm, ?_⟩
      by_cases hp : ciPref m (c :: cs) = true
      · exact ciPref_containsB m _ hp
      · rw [if_neg (by simpa using hp)] at hif
        exact absurd hif (by simp)
    | none =>
      rw [hfs] at h
      obtain ⟨m, hm, hc⟩ := ih h
      exact ⟨m, hm, ciContainsB_cons m c cs hc⟩

theorem extract_reasoning_no_marker (t : List Char)
    (h1 : ∀ m ∈ reasoningMarkers1, ciContainsB m t = false)
    (h2 : ∀ m ∈ reasoningMarkers2, ciContainsB m t = false) :
    extract_reasoning t = pyStrip t := by
  unfold extract_reasoning
  cases hs1 : searchMarkers reasoningMarkers1 t with
  | some g =>
    obtain ⟨m, hm, hc⟩ := searchMarkers_some_contains _ _ _ hs1
    rw [h1 m hm] at hc
    exact absurd hc (by decide)
  | none =>
    cases hs2 : searchMarkers reasoningMarkers2 t with
    | some g =>
      obtain ⟨m, hm, hc⟩ := searchMarkers_some_contains _ _ _ hs2
      rw [h2 m hm] at hc
      exact absurd hc (by decide)
    | none => rfl

theorem searchMarkers_none_of_no_colon (ms : List (List Char)) :
    ∀ t : List Char, (':' : Char) ∉ t → searchMarkers ms t = none := by
  intro t
  induction t with
  | nil => intro _; rfl
  | cons c cs ih =>
    intro h
    rw [searchMarkers]
    have hfs : ms.findSome? (fun m => if ciPref m (c :: cs) then
        colonCapture ((c :: cs).drop m.length) else none) = none := by
      apply findSome?_none_of_all
      intro m _
      by_cases hp : ciPref m (c :: cs) = true
      · rw [if_pos hp]
        unfold colonCapture
        rw [dropWhile_eq_nil_of_all]
        intro x hx
        have hxt : x ∈ c :: cs := List.drop_subset _ _ hx
        have hxc : ¬(x = ':') := fun e => h (e ▸ hxt)
        simp [hxc]
      · rw [if_neg hp]
    rw [hfs]
    exact ih (fun hm => h (List.mem_cons_of_mem c hm))

theorem extract_reasoning_no_colon (t : List Char) (h : (':' : Char) ∉ t) :
    extract_reasoning t = pyStrip t := by
  unfold extract_reasoning
  rw [searchMarkers_none_of_no_colon reasoningMarkers1 t h,
    searchMarkers_none_of_no_colon reasoningMarkers2 t h]

/-- C9 counterexample: three responses on which `extract_reasoning` differs
from the claim.  `"explanation: yes"` contains none of the seven markers the
claim lists, yet the result is the capture `"yes"`, not the text — the
source's first pattern also recognises the marker `explanation`.  The
marker-free `"  total 9  "` comes back stripped, not verbatim.  And
`"because it rained"` contains the marker `because`, yet the pattern cannot
match for want of a colon and the whole text is returned. -/
theorem extract_reasoning_explanation_counterexample :
    ((["step".toList, "reasoning".toList, "because".toList, "since".toList,
        "i think".toList, "i believe".toList, "i calculate".toList].all
      (fun m => !(ciContainsB m "explanation: yes".toList))) = true ∧
     extract_reasoning "explanation: yes".toList = "yes".toList ∧
     ¬("yes".toList = "explanation: yes".toList)) ∧
    (extract_reasoning "  total 9  ".toList = "total 9".toList ∧
     (∀ m ∈ reasoningMarkers1, ciContainsB m "  total 9  ".toList = false) ∧
     (∀ m ∈ reasoningMarkers2, ciContainsB m "  total 9  ".toList = false) ∧
     ¬("total 9".toList = "  total 9  ".toList)) ∧
    (ciContainsB "because".toList "because it rained".toList = true ∧
     extract_reasoning "because it rained".toList = "because it rained".toList) := by
  exact ⟨⟨by decide, by decide, by decide⟩, ⟨by decide, by decide, by decide, by decide⟩,
    ⟨by decide, by decide⟩⟩

/-- C9 (amended): the source's marker set additionally contains
`explanation` (eight markers, matched case-insensitively); a marker must be
followed — after intervening non-colon characters — by a colon for a pattern
to match, and the captured text between that colon and the end of the line
is returned stripped of surrounding whitespace; when no pattern matches
(no marker, or no colon anywhere in the response) the whole response text is
returned stripped of surrounding whitespace, not verbatim.  `searchMarkers`
is the embedded regex search of the two patterns, so the four conjuncts
cover every response. -/
theorem extract_reasoning_marker_fallback :
    (∀ t : List Char, (∀ m ∈ reasoningMarkers1, ciContainsB m t = false) →
      (∀ m ∈ reasoningMarkers2, ciContainsB m t = false) →
      extract_reasoning t = pyStrip t) ∧
    (∀ t : List Char, (':' : Char) ∉ t → extract_reasoning t = pyStrip t) ∧
    (∀ t g : List Char, searchMarkers reasoningMarkers1 t = some g →
      extract_reasoning t = pyStrip g) ∧
    (∀ t g : List Char, searchMarkers reasoningMarkers1 t = none →
      searchMarkers reasoningMarkers2 t = some g → extract_reasoning t = pyStrip g) := by
  refine ⟨extract_reasoning_no_marker, extract_reasoning_no_colon, ?_, ?_⟩
  · intro t g h
    unfold extract_reasoning
    rw [h]
  · intro t g h1 h2
    unfold extract_reasoning
    rw [h1, h2]

/-- C9 witness: the amended theorem evaluated on a marker-free response, a
colon-free response with a marker, and a second-pattern match. -/
theorem extract_reasoning_marker_fallback_witness :
    extract_reasoning "hello world".toList = "hello world".toList ∧
    extract_reasoning "because it rained".toList = "because it rained".toList ∧
    extract_reasoning "I think the carry matters: the sum is 12\nnext".toList =
      "the sum is 12".toList := by
  refine ⟨?_, ?_, ?_⟩
  · have h := extract_reasoning_marker_fallback.1 "hello world".toList (by decide) (by decide)
    rw [h]
    decide
  · have h := extract_reasoning_marker_fallback.2.1 "because it rained".toList (by decide)
    rw [h]
    decide
  · have h := extract_reasoning_marker_fallback.2.2.2
      "I think the carry matters: the sum is 12\nnext".toList "the sum is 12".toList
      (by decide) (by decide)
    rw [h]
    decide

/-! ### add_message bookkeeping -/

theorem add_message_getLast (cm : ConversationManager) (role content : List Char) (t : ℕ)
    (md : Option (List (List Char × List Char))) :
    (cm.add_message role content t md).messages.getLast? =
      some { role := role, content := content, timestamp := t, metadata := md } := by
  unfold ConversationManager.add_message
  set m : ConversationMessage :=
    { role := role, content := content, timestamp := t, metadata := md } with hm
  by_cases hlen : cm.max_history < (cm.messages ++ [m]).length
  · rw [if_pos hlen]
    unfold pySliceLast
    by_cases h0 : cm.max_history = 0
    · rw [if_pos h0]
      exact List.getLast?_concat _
    · rw [if_neg h0]
      have hk : (cm.messages ++ [m]).length - cm.max_history ≤ cm.messages.length := by
        simp [List.length_append]
        omega
      rw [List.drop_append_of_le_length hk]
      exact List.getLast?_concat _
  · rw [if_neg hlen]
    exact List.getLast?_concat _

theorem add_message_length_of_lt (cm : ConversationManager) (role content : List Char)
    (t : ℕ) (md : Option (List (List Char × List Char)))
    (h : cm.messages.length < cm.max_history) :
    (cm.add_message role content t md).messages.length = cm.messages.length + 1 := by
  unfold ConversationManager.add_message
  rw [if_neg (by simp [List.length_append]; omega)]
  simp [List.length_append]

/-! ### process_request failure paths -/

theorem process_request_fail (agent : AIMathAgent) (user_input : List Char)
    (collab : Except PyExc (List Char)) (t : ℕ)
    (h : (parse_math_expression user_input).2.length < 2 ∨
      (∃ e, collab = Except.error e) ∨
      (∃ r, collab = Except.ok r ∧ extract_result_from_response r = none)) :
    ∃ msg, process_request agent user_input collab t =
      (Except.error (PyExc.valueError msg),
        { agent with
            state := AgentState.error
            conversation_manager :=
              agent.conversation_manager.add_message "user".toList user_input t }) := by
  rcases h with h | ⟨e, rfl⟩ | ⟨r, rfl, hr⟩
  · refine ⟨handle_api_error
      (.valueError "Please provide at least two numbers for calculation".toList), ?_⟩
    simp only [process_request]
    rw [if_pos h]
    rfl
  · by_cases hlen : (parse_math_expression user_input).2.length < 2
    · refine ⟨handle_api_error
        (.valueError "Please provide at least two numbers for calculation".toList), ?_⟩
      simp only [process_request]
      rw [if_pos hlen]
      rfl
    · refine ⟨handle_api_error e, ?_⟩
      simp only [process_request]
      rw [if_neg hlen]
      rfl
  · by_cases hlen : (parse_math_expression user_input).2.length < 2
    · refine ⟨handle_api_error
        (.valueError "Please provide at least two numbers for calculation".toList), ?_⟩
      simp only [process_request]
      rw [if_pos hlen]
      rfl
    · refine ⟨handle_api_error
        (.valueError "Could not extract result from AI response".toList), ?_⟩
      simp only [process_request]
      rw [if_neg hlen]
      show (match extract_result_from_response r with
        | none => failWith _ (.valueError "Could not extract result from AI response".toList)
        | some result => _) = _
      rw [hr]
      rfl

/-- C2: every failing request — fewer than two numbers extracted,
collaborator failure, or no numeric result extractable from the response —
makes `process_request` raise a typed `ValueError` (never an uncaught
crash), leaves the agent in the `Error` state, and leaves the calculation
history unchanged. -/
theorem process_request_failure_contract (agent : AIMathAgent) (user_input : List Char)
    (collab : Except PyExc (List Char)) (t : ℕ)
    (h : (parse_math_expression user_input).2.length < 2 ∨
      (∃ e, collab = Except.error e) ∨
      (∃ r, collab = Except.ok r ∧ extract_result_from_response r = none)) :
    (∃ msg, (process_request agent user_input collab t).1 =
      Except.error (PyExc.valueError msg)) ∧
    (process_request agent user_input collab t).2.state = AgentState.error ∧
    (process_request agent user_input collab t).2.calculation_history =
      agent.calculation_history := by
  obtain ⟨msg, hmsg⟩ := process_request_fail agent user_input collab t h
  rw [hmsg]
  exact ⟨⟨msg, rfl⟩, rfl, rfl⟩

/-- C2 witness: the contract evaluated on the single-number request
`"add 5"`. -/
theorem process_request_failure_contract_witness :
    (∃ msg, (process_request {} "add 5".toList (Except.ok "8".toList) 0).1 =
      Except.error (PyExc.valueError msg)) ∧
    (process_request {} "add 5".toList (Except.ok "8".toList) 0).2.state =
      AgentState.error ∧
    (process_request {} "add 5".toList (Except.ok "8".toList) 0).2.calculation_history =
      ({} : AIMathAgent).calculation_history :=
  process_request_failure_contract {} "add 5".toList (Except.ok "8".toList) 0
    (Or.inl (by decide))

/-- C10: the user message is appended to the conversation memory before
input validation and before the collaborator call, so on every failing
request the memory still records the user entry (its last element is the new
user message, and under capacity it grows by exactly one) even though the
request raises and the calculation history is unchanged — `process_request`
is not atomic over the conversation memory on error. -/
theorem process_request_memory_growth_on_failure (agent : AIMathAgent)
    (user_input : List Char) (collab : Except PyExc (List Char)) (t : ℕ)
    (h : (parse_math_expression user_input).2.length < 2 ∨
      (∃ e, collab = Except.error e) ∨
      (∃ r, collab = Except.ok r ∧ extract_result_from_response r = none)) :
    (process_request agent user_input collab t).2.conversation_manager =
      agent.conversation_manager.add_message "user".toList user_input t ∧
    (process_request agent user_input collab t).2.conversation_manager.messages.getLast? =
      some { role := "user".toList, content := user_input, timestamp := t } ∧
    (agent.conversation_manager.messages.length < agent.conversation_manager.max_history →
      (process_request agent user_input collab t).2.conversation_manager.messages.length =
        agent.conversation_manager.messages.length + 1) ∧
    (∃ msg, (process_request agent user_input collab t).1 =
      Except.error (PyExc.valueError msg)) ∧
    (process_request agent user_input collab t).2.calculation_history =
      agent.calculation_history := by
  obtain ⟨msg, hmsg⟩ := process_request_fail agent user_input collab t h
  rw [hmsg]
  refine ⟨rfl, ?_, ?_, ⟨msg, rfl⟩, rfl⟩
  · exact add_message_getLast agent.conversation_manager "user".toList user_input t none
  · intro hlt
    exact add_message_length_of_lt agent.conversation_manager "user".toList user_input t
      none hlt

/-- C10 witness: a failing request against a part-full default memory still
appends the user entry. -/
theorem process_request_memory_growth_on_failure_witness :
    (process_request {} "add 5".toList (Except.ok "8".toList) 0).2.conversation_manager =
      ({} : AIMathAgent).conversation_manager.add_message "user".toList "add 5".toList 0 ∧
    (process_request {} "add 5".toList
        (Except.ok "8".toList) 0).2.conversation_manager.messages.getLast? =
      some { role := "user".toList, content := "add 5".toList, timestamp := 0 } ∧
    (process_request {} "add 5".toList
        (Except.ok "8".toList) 0).2.conversation_manager.messages.length =
      ({} : AIMathAgent).conversation_manager.messages.length + 1 := by
  have h := process_request_memory_growth_on_failure {} "add 5".toList
    (Except.ok "8".toList) 0 (Or.inl (by decide))
  exact ⟨h.1, h.2.1, h.2.2.1 (by decide)⟩

/-! ### Responses with no numeric token -/

theorem bool_eq_true_of_ne_false {b : Bool} (h : ¬(b = false)) : b = true := by
  cases b
  · exact absurd rfl h
  · rfl

theorem takeWhile_ne_nil_head {p : Char → Bool} : ∀ {u : List Char},
    u.takeWhile p ≠ [] → ∃ c ∈ u, p c = true := by
  intro u h
  cases u with
  | nil => simp at h
  | cons a l =>
    by_cases ha : p a = true
    · exact ⟨a, List.mem_cons_self a l, ha⟩
    · rw [List.takeWhile_cons] at h
      simp [ha] at h

theorem parsePosTok_some_digit (u : List Char) (p : ℚ × List Char)
    (h : parseNumTok.parsePosTok u = some p) : ∃ c ∈ u, c.isDigit = true := by
  unfold parseNumTok.parsePosTok at h
  by_cases hd : u.takeWhile Char.isDigit = []
  · rw [if_pos hd] at h
    exact absurd h (by simp)
  · exact takeWhile_ne_nil_head hd

theorem parseNumTok_some_digit (s : List Char) (p : ℚ × List Char)
    (h : parseNumTok s = some p) : ∃ c ∈ s, c.isDigit = true := by
  cases s with
  | nil => exact absurd h (by simp [parseNumTok])
  | cons c cs =>
    rw [parseNumTok] at h
    by_cases hc : c = '-'
    · rw [if_pos hc] at h
      cases hp : parseNumTok.parsePosTok cs with
      | none => rw [hp] at h; exact absurd h (by simp)
      | some q =>
        obtain ⟨d, hd, hdd⟩ := parsePosTok_some_digit cs q hp
        exact ⟨d, List.mem_cons_of_mem c hd, hdd⟩
    · rw [if_neg hc] at h
      exact parsePosTok_some_digit _ p h

theorem parseNumTok_digit_head (c : Char) (cs : List Char) (h : c.isDigit = true) :
    ∃ p, parseNumTok (c :: cs) = some p := by
  rw [parseNumTok, if_neg (digit_ne_char c '-' h (by decide))]
  unfold parseNumTok.parsePosTok
  have hd : (c :: cs).takeWhile Char.isDigit ≠ [] := by
    simp [List.takeWhile_cons, h]
  by_cases hh : ((c :: cs).dropWhile Char.isDigit).headD ' ' = '.'
  · exact ⟨_, by rw [if_neg hd, if_pos hh]⟩
  · exact ⟨_, by rw [if_neg hd, if_neg hh]⟩

theorem scanNumbersAux_ne_nil : ∀ (fuel : ℕ) (s : List Char), s.length ≤ fuel →
    (∃ c ∈ s, c.isDigit = true) → scanNumbersAux fuel s ≠ [] := by
  intro fuel
  induction fuel with
  | zero =>
    intro s hlen hex
    obtain ⟨c, hc, -⟩ := hex
    interval_cases h : s.length
    · rw [List.length_eq_zero] at h
      subst h
      simp at hc
  | succ f ih =>
    intro s hlen hex
    cases s with
    | nil =>
      obtain ⟨c, hc, -⟩ := hex
      simp at hc
    | cons a l =>
      cases hp : parseNumTok (a :: l) with
      | some p =>
        obtain ⟨q, rest⟩ := p
        simp [scanNumbersAux, hp]
      | none =>
        obtain ⟨c, hc, hcd⟩ := hex
        have ha : ¬(a.isDigit = true) := by
          intro hh
          obtain ⟨p, hp2⟩ := parseNumTok_digit_head a l hh
          rw [hp2] at hp
          exact Option.noConfusion hp
        have hcl : c ∈ l := by
          rcases List.mem_cons.mp hc with hce | hcl
          · subst hce; exact absurd hcd ha
          · exact hcl
        simp only [scanNumbersAux, hp]
        exact ih l (by simp at hlen; omega) ⟨c, hcl, hcd⟩

theorem extract_numbers_nil_no_digit (t : List Char)
    (h : extract_numbers_from_text t = []) : ∀ c ∈ t, c.isDigit = false := by
  intro c hc
  by_contra hh
  exact scanNumbersAux_ne_nil t.length t le_rfl ⟨c, hc, bool_eq_true_of_ne_false hh⟩ h

theorem tail_subset_self (l : List Char) : l.tail ⊆ l := by
  cases l with
  | nil => simp
  | cons a l =>
    intro x hx
    exact List.mem_cons_of_mem a hx

theorem numAfterColonOpt_some_digit (u : List Char) (q : ℚ)
    (h : numAfterColonOpt u = some q) : ∃ c ∈ u, c.isDigit = true := by
  unfold numAfterColonOpt at h
  obtain ⟨p, hp, -⟩ := Option.map_eq_some'.mp h
  obtain ⟨c, hc, hcd⟩ := parseNumTok_some_digit _ p hp
  refine ⟨c, ?_, hcd⟩
  have h3 := (List.dropWhile_sublist isWs).subset hc
  by_cases hcond : (u.dropWhile isWs).headD ' ' = ':'
  · rw [if_pos hcond] at h3
    exact (List.dropWhile_sublist isWs).subset
      (tail_subset_self _ h3)
  · rw [if_neg hcond] at h3
    exact (List.dropWhile_sublist isWs).subset h3

theorem searchPat1_some_digit (u : List Char) (q : ℚ) (h : searchPat1 u = some q) :
    ∃ c ∈ u, c.isDigit = true := by
  induction u with
  | nil => simp [searchPat1] at h
  | cons c cs ih =>
    rw [searchPat1] at h
    cases hfs : resultKeywords.findSome?
        (fun kw => if ciPref kw (c :: cs) then numAfterColonOpt ((c :: cs).drop kw.length)
          else none) with
    | some q' =>
      obtain ⟨kw, -, hif⟩ := List.exists_of_findSome?_eq_some hfs
      by_cases hp : ciPref kw (c :: cs) = true
      · rw [if_pos hp] at hif
        obtain ⟨d, hd, hdd⟩ := numAfterColonOpt_some_digit _ q' hif
        exact ⟨d, List.drop_subset _ _ hd, hdd⟩
      · rw [if_neg (by simpa using hp)] at hif
        exact absurd hif (by simp)
    | none =>
      rw [hfs] at h
      obtain ⟨d, hd, hdd⟩ := ih h
      exact ⟨d, List.mem_cons_of_mem c hd, hdd⟩

theorem searchPat2_some_digit (u : List Char) (q : ℚ) (h : searchPat2 u = some q) :
    ∃ c ∈ u, c.isDigit = true := by
  induction u with
  | nil => simp [searchPat2] at h
  | cons c cs ih =>
    rw [searchPat2] at h
    cases hp : parseNumTok (c :: cs) with
    | some p =>
      obtain ⟨q', rest⟩ := p
      exact parseNumTok_some_digit _ _ hp
    | none =>
      rw [hp] at h
      obtain ⟨d, hd, hdd⟩ := ih h
      exact ⟨d, List.mem_cons_of_mem c hd, hdd⟩

theorem searchPat3_some_digit (u : List Char) (q : ℚ) (h : searchPat3 u = some q) :
    ∃ c ∈ u, c.isDigit = true := by
  induction u with
  | nil => simp [searchPat3] at h
  | cons c cs ih =>
    rw [searchPat3] at h
    by_cases hff : ciPref "final answer".toList (c :: cs) = true
    · rw [if_pos hff] at h
      cases hn : numAfterColonOpt ((c :: cs).drop ("final answer".toList).length) with
      | some q' =>
        obtain ⟨d, hd, hdd⟩ := numAfterColonOpt_some_digit _ q' hn
        exact ⟨d, List.drop_subset _ _ hd, hdd⟩
      | none =>
        rw [hn] at h
        obtain ⟨d, hd, hdd⟩ := ih h
        exact ⟨d, List.mem_cons_of_mem c hd, hdd⟩
    · rw [if_neg hff] at h
      obtain ⟨d, hd, hdd⟩ := ih h
      exact ⟨d, List.mem_cons_of_mem c hd, hdd⟩

theorem searchPat4_some_digit (u : List Char) (q : ℚ) (h : searchPat4 u = some q) :
    ∃ c ∈ u, c.isDigit = true := by
  induction u with
  | nil => simp [searchPat4] at h
  | cons c cs ih =>
    rw [searchPat4] at h
    cases hp : parseNumTok (c :: cs) with
    | some p =>
      obtain ⟨q', rest⟩ := p
      exact parseNumTok_some_digit _ _ hp
    | none =>
      rw [hp] at h
      obtain ⟨d, hd, hdd⟩ := ih h
      exact ⟨d, List.mem_cons_of_mem c hd, hdd⟩

theorem extract_result_none_of_no_numbers (u : List Char)
    (h : extract_numbers_from_text u = []) : extract_result_from_response u = none := by
  have hnd := extract_numbers_nil_no_digit u h
  have no_digit : ∀ q : ℚ, ∀ c ∈ u, c.isDigit = true → False := by
    intro q c hc hcd
    rw [hnd c hc] at hcd
    exact absurd hcd (by decide)
  have h1 : searchPat1 u = none := by
    cases hq : searchPat1 u with
    | none => rfl
    | some q =>
      obtain ⟨c, hc, hcd⟩ := searchPat1_some_digit u q hq
      exact absurd hcd (fun hcd => no_digit q c hc hcd)
  have h2 : searchPat2 u = none := by
    cases hq : searchPat2 u with
    | none => rfl
    | some q =>
      obtain ⟨c, hc, hcd⟩ := searchPat2_some_digit u q hq
      exact absurd hcd (fun hcd => no_digit q c hc hcd)
  have h3 : searchPat3 u = none := by
    cases hq : searchPat3 u with
    | none => rfl
    | some q =>
      obtain ⟨c, hc, hcd⟩ := searchPat3_some_digit u q hq
      exact absurd hcd (fun hcd => no_digit q c hc hcd)
  have h4 : searchPat4 u = none := by
    cases hq : searchPat4 u with
    | none => rfl
    | some q =>
      obtain ⟨c, hc, hcd⟩ := searchPat4_some_digit u q hq
      exact absurd hcd (fun hcd => no_digit q c hc hcd)
  unfold extract_result_from_response
  rw [h1, h2, h3, h4, h]
  rfl

/-- C6: a collaborator response containing no numeric token yields an absent
extraction (never a default value), and the pipeline then surfaces this as a
raised typed failure with the state at `Error` and the history unchanged
rather than completing with a fabricated result. -/
theorem no_numeric_token_extraction_absent :
    (∀ u : List Char, extract_numbers_from_text u = [] →
      extract_result_from_response u = none) ∧
    (∀ (agent : AIMathAgent) (user_input r : List Char) (t : ℕ),
      extract_numbers_from_text r = [] →
      (∃ msg, (process_request agent user_input (Except.ok r) t).1 =
        Except.error (PyExc.valueError msg)) ∧
      (process_request agent user_input (Except.ok r) t).2.state = AgentState.error ∧
      (process_request agent user_input (Except.ok r) t).2.calculation_history =
        agent.calculation_history) := by
  constructor
  · exact extract_result_none_of_no_numbers
  · intro agent user_input r t hr
    obtain ⟨msg, hmsg⟩ := process_request_fail agent user_input (Except.ok r) t
      (Or.inr (Or.inr ⟨r, rfl, extract_result_none_of_no_numbers r hr⟩))
    rw [hmsg]
    exact ⟨⟨msg, rfl⟩, rfl, rfl⟩

/-- C6 witness: a numeral-free response makes the extraction absent and the
concrete pipeline run fail in state `Error`. -/
theorem no_numeric_token_extraction_absent_witness :
    extract_result_from_response "Sorry, I cannot.".toList = none ∧
    (process_request {} "add 5 and 3".toList
        (Except.ok "Sorry, I cannot.".toList) 0).2.state = AgentState.error :=
  ⟨no_numeric_token_extraction_absent.1 "Sorry, I cannot.".toList (by decide),
    (no_numeric_token_extraction_absent.2 {} "add 5 and 3".toList
      "Sorry, I cannot.".toList 0 (by decide)).2.1⟩
